import Mathlib

/-!
Verification development for the jarvais-highcharts statistics and
chart-transform engine.  The definitions below are a shallow embedding of
the Python source: `src/utils/stats.py` (variable-type identification,
eta-squared effect size, pairwise statistical tests, significance ranking),
`src/plot/boxplot.py` (box-plot summaries with IQR-fence outliers),
`src/app/plot/corr_heatmap.py` (lower-triangular correlation triplets) and
`src/app/plot/freq_heatmap.py` (cross-tabulation frequency grids).

Continuous values are modelled as rationals (exact arithmetic, no NaN);
categorical labels as values of an arbitrary decidable linear order.
The scipy test calls (`mannwhitneyu`, `kruskal`) are opaque numerical
routines and are modelled as oracle parameters returning
`Except String (ℚ × ℚ)` (statistic, p-value) — the branch structure around
them is what the code owns.
-/

namespace JarvAIs

/-- `data[[cat, cont]].dropna()`: keep only rows where both columns are
present. -/
def cleanPairs {α : Type} (rows : List (Option α × Option ℚ)) : List (α × ℚ) :=
  rows.filterMap fun r =>
    match r with
    | (some a, some b) => some (a, b)
    | _ => none

/-- The distinct categorical keys of the clean rows, in sorted order
(pandas `groupby` sorts group keys). -/
def keyList {α : Type} [LinearOrder α] [DecidableEq α]
    (l : List (α × ℚ)) : List α :=
  List.insertionSort (· ≤ ·) (l.map Prod.fst).dedup

/-- The continuous values of one group: `group[continuous_var].values` for
the rows whose categorical value is `k`. -/
def groupOf {α : Type} [DecidableEq α] (l : List (α × ℚ)) (k : α) : List ℚ :=
  (l.filter fun p => p.1 = k).map Prod.snd

/-- `[group[cont].values for name, group in clean.groupby(cat)]`. -/
def groupsOf {α : Type} [LinearOrder α] [DecidableEq α]
    (l : List (α × ℚ)) : List (List ℚ) :=
  (keyList l).map (groupOf l)

/-- Arithmetic mean of a list of rationals (`Series.mean`). -/
def mean (l : List ℚ) : ℚ := l.sum / l.length

/-- Between-group sum of squares:
`sum(len(g) * (g.mean() - overall_mean)**2 for g in groups)`. -/
def ssBetween (gs : List (List ℚ)) (overallMean : ℚ) : ℚ :=
  (gs.map fun g => (g.length : ℚ) * (mean g - overallMean) ^ 2).sum

/-- Total sum of squares: `sum((clean[cont] - overall_mean)**2)`. -/
def ssTotal (vals : List ℚ) (overallMean : ℚ) : ℚ :=
  (vals.map fun x => (x - overallMean) ^ 2).sum

/-- Shallow embedding of `calculate_effect_size` (eta-squared) from
`src/utils/stats.py`. -/
def calculate_effect_size {α : Type} [LinearOrder α] [DecidableEq α]
    (rows : List (Option α × Option ℚ)) : ℚ :=
  let clean := cleanPairs rows
  if clean.length < 3 then 0
  else
    let gs := groupsOf clean
    let overallMean := mean (clean.map Prod.snd)
    let ssb := ssBetween gs overallMean
    let sst := ssTotal (clean.map Prod.snd) overallMean
    if sst = 0 then 0 else ssb / sst

/-- The closed set of result kinds of `perform_statistical_test`. -/
inductive TestType where
  | insufficient_data
  | insufficient_groups
  | mann_whitney_u
  | kruskal_wallis
  | error
deriving DecidableEq, Repr, Inhabited

/-- The structured result dictionary of `perform_statistical_test`. -/
structure TestResult where
  test_type : TestType
  p_value : ℚ
  test_statistic : ℚ
  effect_size : ℚ
  n_groups : ℕ
  total_n : ℕ
  err : Option String
deriving DecidableEq, Repr, Inhabited

/-- Shallow embedding of `perform_statistical_test` from
`src/utils/stats.py`.  `mwu` and `kw` are the scipy oracles
(`mannwhitneyu(groups[0], groups[1], alternative='two-sided')` and
`kruskal(*groups)`); `Except.error` models the raised exception the
`try/except` catches. -/
def perform_statistical_test {α : Type} [LinearOrder α] [DecidableEq α]
    (mwu : List ℚ → List ℚ → Except String (ℚ × ℚ))
    (kw : List (List ℚ) → Except String (ℚ × ℚ))
    (rows : List (Option α × Option ℚ)) : TestResult :=
  let clean := cleanPairs rows
  if clean.length < 3 then
    { test_type := .insufficient_data, p_value := 1, test_statistic := 0
      effect_size := 0, n_groups := 0, total_n := clean.length, err := none }
  else
    let gs := (groupsOf clean).filter fun g => 0 < g.length
    let n := gs.length
    if n < 2 then
      { test_type := .insufficient_groups, p_value := 1, test_statistic := 0
        effect_size := 0, n_groups := n, total_n := clean.length, err := none }
    else
      let es := calculate_effect_size (clean.map fun p => (some p.1, some p.2))
      let outcome :=
        if n = 2 then mwu (gs.getD 0 []) (gs.getD 1 []) else kw gs
      match outcome with
      | .ok (stat, p) =>
          { test_type := if n = 2 then .mann_whitney_u else .kruskal_wallis
            p_value := p, test_statistic := stat, effect_size := es
            n_groups := n, total_n := clean.length, err := none }
      | .error e =>
          { test_type := .error, p_value := 1, test_statistic := 0
            effect_size := 0, n_groups := n, total_n := clean.length
            err := some e }

/-! ### DataFrame model, variable identification and significance ranking -/

/-- A numeric DataFrame: named columns of optional rationals (`none` is a
missing value).  Categorical columns of the service's numeric datasets are
low-cardinality numeric columns, so a single value type suffices. -/
abbrev DataFrame : Type := List (String × List (Option ℚ))

/-- Column lookup (`data[col]`); absent names give the empty column. -/
def getCol (df : DataFrame) (name : String) : List (Option ℚ) :=
  match df.find? fun c => c.1 = name with
  | some c => c.2
  | none => []

/-- The number of rows of the DataFrame (`len(data)`): the length of its
first column (all columns have equal length by the DataFrame invariant). -/
def nRows (df : DataFrame) : ℕ :=
  match df with
  | [] => 0
  | c :: _ => c.2.length

/-- Non-null values of a column (`Series.dropna`). -/
def colVals (col : List (Option ℚ)) : List ℚ := col.filterMap id

/-- `data[col].isnull().sum()`. -/
def countNull (col : List (Option ℚ)) : ℕ :=
  (col.filter fun v => v = none).length

/-- `data[col].nunique()` (pandas excludes missing values). -/
def nunique (col : List (Option ℚ)) : ℕ := (colVals col).dedup.length

/-- `all(count >= min_observations for count in value_counts.values)`. -/
def allCountsAtLeast (col : List (Option ℚ)) (minObs : ℕ) : Bool :=
  (colVals col).dedup.all fun v => minObs ≤ (colVals col).count v

/-- Shallow embedding of `identify_variable_types` from
`src/utils/stats.py`, restricted to numeric DataFrames (every column of
the model is numeric, so the `is_numeric_dtype` branch is always taken). -/
def identify_variable_types (df : DataFrame)
    (categorical_threshold : ℕ) (min_observations : ℕ) :
    List String × List String :=
  let step := fun (acc : List String × List String) (c : String × List (Option ℚ)) =>
    if ((countNull c.2 : ℚ) / (nRows df : ℚ)) > 1/2 then acc
    else if nunique c.2 ≤ categorical_threshold then
      if allCountsAtLeast c.2 min_observations then (acc.1 ++ [c.1], acc.2)
      else (acc.1, acc.2 ++ [c.1])
    else (acc.1, acc.2 ++ [c.1])
  df.foldl step ([], [])

/-- One row of the ranked-pair table built by
`find_significant_categorical_continuous_pairs`. -/
structure ResultRow where
  categorical_var : String
  continuous_var : String
  test_type : TestType
  p_value : ℚ
  test_statistic : ℚ
  effect_size : ℚ
  n_groups : ℕ
  total_n : ℕ
  significant : Bool
  meaningful : Bool
  err : Option String
deriving DecidableEq, Repr, Inhabited

/-- The sort order of `sort_values(['p_value', 'effect_size'],
ascending=[True, False])`: ascending p-value, ties broken by descending
effect size. -/
def rowLE (a b : ResultRow) : Prop :=
  a.p_value < b.p_value ∨ (a.p_value = b.p_value ∧ b.effect_size ≤ a.effect_size)

instance : DecidableRel rowLE := fun a b => by
  unfold rowLE; infer_instance

instance : IsTotal ResultRow rowLE where
  total a b := by
    unfold rowLE
    rcases lt_trichotomy a.p_value b.p_value with h | h | h
    · exact Or.inl (Or.inl h)
    · rcases le_total b.effect_size a.effect_size with h2 | h2
      · exact Or.inl (Or.inr ⟨h, h2⟩)
      · exact Or.inr (Or.inr ⟨h.symm, h2⟩)
    · exact Or.inr (Or.inl h)

instance : IsTrans ResultRow rowLE where
  trans a b c hab hbc := by
    unfold rowLE at *
    rcases hab with h1 | ⟨h1, e1⟩
    · rcases hbc with h2 | ⟨h2, _⟩
      · exact Or.inl (h1.trans h2)
      · exact Or.inl (h2 ▸ h1)
    · rcases hbc with h2 | ⟨h2, e2⟩
      · exact Or.inl (h1 ▸ h2)
      · exact Or.inr ⟨h1.trans h2, e2.trans e1⟩

/-- Python truthiness of `categorical_vars or detected_cat`: `None` and the
empty list are falsy and replaced by the detected list. -/
def pyOrList (arg : Option (List String)) (detected : List String) : List String :=
  match arg with
  | none => detected
  | some [] => detected
  | some l => l

/-- The role lists actually used by
`find_significant_categorical_continuous_pairs`: auto-detection runs only
when at least one argument is `None`. -/
def resolveRoles (df : DataFrame)
    (categorical_vars continuous_vars : Option (List String)) :
    List String × List String :=
  if categorical_vars.isNone || continuous_vars.isNone then
    let detected := identify_variable_types df 10 5
    (pyOrList categorical_vars detected.1, pyOrList continuous_vars detected.2)
  else
    (categorical_vars.getD [], continuous_vars.getD [])

/-- `data[[cat_var, cont_var]]`: pairing of the two columns row by row. -/
def pairRows (df : DataFrame) (catVar contVar : String) :
    List (Option ℚ × Option ℚ) :=
  (getCol df catVar).zip (getCol df contVar)

/-- Shallow embedding of `find_significant_categorical_continuous_pairs`
from `src/utils/stats.py`: test the full cross-product of categorical ×
continuous columns (skipping self-pairs), then sort ascending by p-value
with ties broken by descending effect size. -/
def find_significant_categorical_continuous_pairs
    (mwu : List ℚ → List ℚ → Except String (ℚ × ℚ))
    (kw : List (List ℚ) → Except String (ℚ × ℚ))
    (df : DataFrame)
    (categorical_vars : Option (List String))
    (continuous_vars : Option (List String))
    (alpha : ℚ) (min_effect_size : ℚ) : List ResultRow :=
  let roles := resolveRoles df categorical_vars continuous_vars
  let results := roles.1.flatMap fun catVar =>
    roles.2.filterMap fun contVar =>
      if catVar = contVar then none
      else
        let t := perform_statistical_test mwu kw (pairRows df catVar contVar)
        some { categorical_var := catVar, continuous_var := contVar
               test_type := t.test_type, p_value := t.p_value
               test_statistic := t.test_statistic, effect_size := t.effect_size
               n_groups := t.n_groups, total_n := t.total_n
               significant := decide (t.p_value < alpha)
               meaningful := decide (min_effect_size ≤ t.effect_size)
               err := t.err }
  if results.length = 0 then []
  else List.insertionSort rowLE results

/-- Shallow embedding of `get_top_significant_pairs` from
`src/utils/stats.py`. -/
def get_top_significant_pairs
    (mwu : List ℚ → List ℚ → Except String (ℚ × ℚ))
    (kw : List (List ℚ) → Except String (ℚ × ℚ))
    (df : DataFrame) (top_n : ℕ)
    (categorical_vars : Option (List String))
    (continuous_vars : Option (List String))
    (alpha : ℚ) (min_effect_size : ℚ) : List ResultRow :=
  let all_results := find_significant_categorical_continuous_pairs
    mwu kw df categorical_vars continuous_vars alpha min_effect_size
  if all_results.length = 0 then []
  else
    let significant_results :=
      all_results.filter fun r => r.significant && r.meaningful
    if significant_results.length = 0 then all_results.take top_n
    else significant_results.take top_n

/-! ### Box-plot summaries (`src/plot/boxplot.py`) -/

/-- Sort a list of rationals ascending (`np.sort` under `np.quantile`). -/
def sortQ (l : List ℚ) : List ℚ := List.insertionSort (· ≤ ·) l

/-- `np.quantile(values, q)` with the default linear-interpolation method:
with `s` the sorted values and `h = q*(n-1)`, interpolate between
`s[floor h]` and `s[ceil h]`.  (`np.median` is the `q = 1/2` case.)
Only used on non-empty lists. -/
def quantile (l : List ℚ) (q : ℚ) : ℚ :=
  let s := sortQ l
  let h : ℚ := q * ((s.length : ℚ) - 1)
  let lo := (Int.floor h).toNat
  let hi := (Int.ceil h).toNat
  let a := s.getD lo 0
  let b := s.getD hi 0
  a + (h - (lo : ℚ)) * (b - a)

/-- Minimum of a non-empty list (`Series.min`); 0 on the empty list. -/
def listMin : List ℚ → ℚ
  | [] => 0
  | x :: xs => xs.foldl min x

/-- Maximum of a non-empty list (`Series.max`); 0 on the empty list. -/
def listMax : List ℚ → ℚ
  | [] => 0
  | x :: xs => xs.foldl max x

/-- One entry of the Highcharts box series:
`[x, whisker_min, q1, median, q3, whisker_max]`. -/
structure BoxEntry where
  x : ℕ
  low : ℚ
  q1 : ℚ
  median : ℚ
  q3 : ℚ
  high : ℚ
deriving DecidableEq, Repr, Inhabited

/-- The body of the per-category loop of `get_box_plot_json`: for category
index `i` with continuous values `vals`, the box entry and outlier points
contributed (none when the category has ≤ 1 observation). -/
def boxPiece (i : ℕ) (vals : List ℚ) : List BoxEntry × List (ℕ × ℚ) :=
  if 1 < vals.length then
    let q1 := quantile vals (1/4)
    let q3 := quantile vals (3/4)
    let med := quantile vals (1/2)
    let iqr := q3 - q1
    let lowerFence := q1 - 3/2 * iqr
    let upperFence := q3 + 3/2 * iqr
    let filtered := vals.filter fun v => lowerFence ≤ v ∧ v ≤ upperFence
    let wmin := if 0 < filtered.length then listMin filtered else listMin vals
    let wmax := if 0 < filtered.length then listMax filtered else listMax vals
    let outliers := vals.filter fun v => v < lowerFence ∨ upperFence < v
    ([{ x := i, low := wmin, q1 := q1, median := med, q3 := q3, high := wmax }],
     outliers.map fun v => (i, v))
  else ([], [])

/-- `sorted(clean_data[var_categorical].unique())`. -/
def boxCategories {α : Type} [LinearOrder α] [DecidableEq α]
    (rows : List (Option α × Option ℚ)) : List α :=
  List.insertionSort (· ≤ ·) ((cleanPairs rows).map Prod.fst).dedup

/-- `clean_data[clean_data[var_categorical] == category][var_continuous]`. -/
def catVals {α : Type} [DecidableEq α]
    (rows : List (Option α × Option ℚ)) (c : α) : List ℚ :=
  groupOf (cleanPairs rows) c

/-- Shallow embedding of the data-building part of `get_box_plot_json`
from `src/plot/boxplot.py`: the box series (`box_data`) and the outlier
scatter series (`outliers_data`).  Category indices come from
`enumerate(categories)` over the sorted distinct categories, so skipped
singleton categories still consume an index. -/
def get_box_plot_json {α : Type} [LinearOrder α] [DecidableEq α]
    (rows : List (Option α × Option ℚ)) : List BoxEntry × List (ℕ × ℚ) :=
  let pieces := (boxCategories rows).enum.map fun p => boxPiece p.1 (catVals rows p.2)
  ((pieces.map Prod.fst).flatten, (pieces.map Prod.snd).flatten)

/-! ### Correlation heatmap (`src/app/plot/corr_heatmap.py`) -/

/-- Python 3 `round` (and `np.float64.__round__`) to the nearest integer,
halves to even (banker's rounding). -/
def roundHalfEven (q : ℚ) : ℤ :=
  let f := Int.floor q
  let r := q - (f : ℚ)
  if r < 1/2 then f
  else if 1/2 < r then f + 1
  else if f % 2 = 0 then f else f + 1

/-- `round(value, 2)`: round to 2 decimal places. -/
def round2 (q : ℚ) : ℚ := (roundHalfEven (q * 100) : ℚ) / 100

/-- Entry `corr.loc[row_label, col_label]` of the correlation matrix,
modelled positionally (row `y`, column `x`). -/
def matrixEntry (corr : List (List ℚ)) (y x : ℕ) : ℚ :=
  (corr.getD y []).getD x 0

/-- Shallow embedding of the data-building loop of `get_corr_heatmap_json`
from `src/app/plot/corr_heatmap.py`: for each row index `y` and column
index `x` with `x < y`, emit `[x, y, round(value, 2)]`. -/
def corrHeatmapData (corr : List (List ℚ)) : List (ℕ × ℕ × ℚ) :=
  (List.range corr.length).flatMap fun y =>
    ((List.range corr.length).filter fun x => x < y).map fun x =>
      (x, y, round2 (matrixEntry corr y x))

/-! ### Frequency heatmap (`src/app/plot/freq_heatmap.py`) -/

/-- Sorted distinct values of a list (the index/columns of
`pd.crosstab`, which sorts its categories). -/
def sortedUnique (l : List ℚ) : List ℚ :=
  List.insertionSort (· ≤ ·) l.dedup

/-- Shallow embedding of the data-building loop of
`get_freq_heatmaps_json` (one column pair) from
`src/app/plot/freq_heatmap.py`: for the crosstab of the pair rows `ps`
(`pd.crosstab` drops rows with a missing value), emit `[x, y, count]`
for every cell of the grid. -/
def freqHeatmapData (ps : List (ℚ × ℚ)) : List (ℕ × ℕ × ℕ) :=
  let yCats := sortedUnique (ps.map Prod.fst)
  let xCats := sortedUnique (ps.map Prod.snd)
  yCats.enum.flatMap fun yc =>
    xCats.enum.map fun xc =>
      (xc.1, yc.1, ps.count (yc.2, xc.2))

/-! ### Concrete fixtures used in end-to-end checks -/

/-- Scipy oracle stub that always succeeds (2-group test). -/
def okMwu : List ℚ → List ℚ → Except String (ℚ × ℚ) := fun _ _ => .ok (0, 0)

/-- Scipy oracle stub that always succeeds (3+-group test). -/
def okKw : List (List ℚ) → Except String (ℚ × ℚ) := fun _ => .ok (0, 0)

/-- Scipy oracle stub that always raises (2-group test). -/
def errMwu : List ℚ → List ℚ → Except String (ℚ × ℚ) :=
  fun _ _ => .error "degenerate"

/-- Scipy oracle stub that always raises (3+-group test). -/
def errKw : List (List ℚ) → Except String (ℚ × ℚ) :=
  fun _ => .error "degenerate"

/-- Scenario D fixture: one category with continuous values
`[1, 2, 3, 4, 5, 100]`. -/
def exampleRowsD : List (Option ℚ × Option ℚ) :=
  [(some 0, some 1), (some 0, some 2), (some 0, some 3),
   (some 0, some 4), (some 0, some 5), (some 0, some 100)]

/-- Whisker fixture: one category with continuous values
`[0, 10, 10, 10]`. -/
def exampleRowsW : List (Option ℚ × Option ℚ) :=
  [(some 0, some 0), (some 0, some 10), (some 0, some 10), (some 0, some 10)]

/-- A DataFrame with one auto-detectable categorical column (`g`, two
values with 5 observations each) and one auto-detectable continuous
column (`y`, ten distinct values). -/
def exampleDf : DataFrame :=
  [("g", [some 1, some 1, some 1, some 1, some 1,
          some 2, some 2, some 2, some 2, some 2]),
   ("y", [some 1, some 2, some 3, some 4, some 5,
          some 6, some 7, some 8, some 9, some 10])]

/-- Three complete rows forming a single group. -/
def exampleRowsOneGroup : List (Option ℚ × Option ℚ) :=
  [(some 0, some 1), (some 0, some 2), (some 0, some 3)]

/-- Three complete rows forming two groups. -/
def exampleRowsTwoGroups : List (Option ℚ × Option ℚ) :=
  [(some 0, some 1), (some 0, some 2), (some 1, some 3)]

/-- Three complete rows forming three groups. -/
def exampleRowsThreeGroups : List (Option ℚ × Option ℚ) :=
  [(some 0, some 1), (some 1, some 2), (some 2, some 3)]

/-- Two groups over three rows with identical continuous values
(zero total sum of squares). -/
def exampleRowsZeroVar : List (Option ℚ × Option ℚ) :=
  [(some 0, some 5), (some 0, some 5), (some 1, some 5)]

end JarvAIs

namespace JarvAIs

/-- C1: `perform_statistical_test` always returns a structured result:
fewer than 3 complete rows gives `insufficient_data` with p-value 1,
effect size 0 and 0 groups; fewer than 2 non-empty groups gives
`insufficient_groups` with p-value 1 and effect size 0; and a failing
statistical test gives `error` with p-value 1, effect size 0 and the
failure message attached. -/
theorem C1_test_pair_structured {α : Type} [LinearOrder α] [DecidableEq α]
    (mwu : List ℚ → List ℚ → Except String (ℚ × ℚ))
    (kw : List (List ℚ) → Except String (ℚ × ℚ))
    (rows : List (Option α × Option ℚ)) :
    ((cleanPairs rows).length < 3 →
       (perform_statistical_test mwu kw rows).test_type = .insufficient_data ∧
       (perform_statistical_test mwu kw rows).p_value = 1 ∧
       (perform_statistical_test mwu kw rows).effect_size = 0 ∧
       (perform_statistical_test mwu kw rows).n_groups = 0) ∧
    (3 ≤ (cleanPairs rows).length →
     ((groupsOf (cleanPairs rows)).filter fun g => 0 < g.length).length < 2 →
       (perform_statistical_test mwu kw rows).test_type = .insufficient_groups ∧
       (perform_statistical_test mwu kw rows).p_value = 1 ∧
       (perform_statistical_test mwu kw rows).effect_size = 0) ∧
    (∀ e : String, 3 ≤ (cleanPairs rows).length →
     2 ≤ ((groupsOf (cleanPairs rows)).filter fun g => 0 < g.length).length →
       (if ((groupsOf (cleanPairs rows)).filter fun g => 0 < g.length).length = 2
        then mwu (((groupsOf (cleanPairs rows)).filter fun g => 0 < g.length).getD 0 [])
                 (((groupsOf (cleanPairs rows)).filter fun g => 0 < g.length).getD 1 [])
        else kw ((groupsOf (cleanPairs rows)).filter fun g => 0 < g.length)) = .error e →
       (perform_statistical_test mwu kw rows).test_type = .error ∧
       (perform_statistical_test mwu kw rows).p_value = 1 ∧
       (perform_statistical_test mwu kw rows).effect_size = 0 ∧
       (perform_statistical_test mwu kw rows).err = some e) := by
  refine ⟨?_, ?_, ?_⟩
  · intro h
    simp [perform_statistical_test, h]
  · intro h3 hg
    have h3' : ¬ (cleanPairs rows).length < 3 := by omega
    simp [perform_statistical_test, h3', hg]
  · intro e h3 hg herr
    have h3' : ¬ (cleanPairs rows).length < 3 := by omega
    have hg' : ¬ ((groupsOf (cleanPairs rows)).filter fun g => 0 < g.length).length < 2 := by
      omega
    simp only [perform_statistical_test, if_neg h3', if_neg hg', herr]
    exact ⟨trivial, trivial, trivial, trivial⟩

/-- C3: with at least 3 complete rows, `perform_statistical_test` selects
the two-sided Mann–Whitney U test when exactly 2 non-empty groups remain
and the Kruskal–Wallis test when 3 or more remain, provided the
underlying test computation succeeds. -/
theorem C3_test_selection {α : Type} [LinearOrder α] [DecidableEq α]
    (mwu : List ℚ → List ℚ → Except String (ℚ × ℚ))
    (kw : List (List ℚ) → Except String (ℚ × ℚ))
    (rows : List (Option α × Option ℚ)) :
    (3 ≤ (cleanPairs rows).length →
     ((groupsOf (cleanPairs rows)).filter fun g => 0 < g.length).length = 2 →
     (∀ e, mwu (((groupsOf (cleanPairs rows)).filter fun g => 0 < g.length).getD 0 [])
               (((groupsOf (cleanPairs rows)).filter fun g => 0 < g.length).getD 1 [])
          ≠ .error e) →
       (perform_statistical_test mwu kw rows).test_type = .mann_whitney_u) ∧
    (3 ≤ (cleanPairs rows).length →
     3 ≤ ((groupsOf (cleanPairs rows)).filter fun g => 0 < g.length).length →
     (∀ e, kw ((groupsOf (cleanPairs rows)).filter fun g => 0 < g.length) ≠ .error e) →
       (perform_statistical_test mwu kw rows).test_type = .kruskal_wallis) := by
  constructor
  · intro h3 h2 hok
    have h3' : ¬ (cleanPairs rows).length < 3 := by omega
    have hg' : ¬ ((groupsOf (cleanPairs rows)).filter fun g => 0 < g.length).length < 2 := by
      omega
    simp only [perform_statistical_test, if_neg h3', if_neg hg', if_pos h2]
    rcases hout : mwu (((groupsOf (cleanPairs rows)).filter fun g => 0 < g.length).getD 0 [])
        (((groupsOf (cleanPairs rows)).filter fun g => 0 < g.length).getD 1 []) with e | p
    · exact absurd hout (hok e)
    · obtain ⟨s, pv⟩ := p
      rw [hout]
  · intro h3 hge hok
    have h3' : ¬ (cleanPairs rows).length < 3 := by omega
    have hg' : ¬ ((groupsOf (cleanPairs rows)).filter fun g => 0 < g.length).length < 2 := by
      omega
    have hne : ¬ ((groupsOf (cleanPairs rows)).filter fun g => 0 < g.length).length = 2 := by
      omega
    simp only [perform_statistical_test, if_neg h3', if_neg hg', if_neg hne]
    rcases hout : kw ((groupsOf (cleanPairs rows)).filter fun g => 0 < g.length) with e | p
    · exact absurd hout (hok e)
    · obtain ⟨s, pv⟩ := p
      rfl

end JarvAIs

namespace JarvAIs

/-- Consecutive elements of an insertion-sorted row list are related by
the sort order. -/
theorem rowLE_consecutive_of_sorted (l : List ResultRow) (i : ℕ)
    (h : i + 1 < (List.insertionSort rowLE l).length) :
    rowLE ((List.insertionSort rowLE l).getD i default)
          ((List.insertionSort rowLE l).getD (i + 1) default) := by
  rw [List.getD_eq_getElem _ _ (Nat.lt_of_succ_lt h), List.getD_eq_getElem _ _ h]
  exact (List.sorted_insertionSort rowLE l).rel_get_of_lt (by simp)

/-- C2: the ranked-pair table is sorted: consecutive rows have
non-decreasing p-values, and rows with equal p-values have non-increasing
effect sizes. -/
theorem C2_ranked_pairs_sorted
    (mwu : List ℚ → List ℚ → Except String (ℚ × ℚ))
    (kw : List (List ℚ) → Except String (ℚ × ℚ))
    (df : DataFrame) (catArg contArg : Option (List String))
    (alpha minEff : ℚ) (i : ℕ)
    (h : i + 1 < (find_significant_categorical_continuous_pairs
          mwu kw df catArg contArg alpha minEff).length) :
    ((find_significant_categorical_continuous_pairs mwu kw df catArg contArg
        alpha minEff).getD i default).p_value ≤
      ((find_significant_categorical_continuous_pairs mwu kw df catArg contArg
        alpha minEff).getD (i + 1) default).p_value ∧
    (((find_significant_categorical_continuous_pairs mwu kw df catArg contArg
        alpha minEff).getD i default).p_value =
      ((find_significant_categorical_continuous_pairs mwu kw df catArg contArg
        alpha minEff).getD (i + 1) default).p_value →
      ((find_significant_categorical_continuous_pairs mwu kw df catArg contArg
        alpha minEff).getD (i + 1) default).effect_size ≤
      ((find_significant_categorical_continuous_pairs mwu kw df catArg contArg
        alpha minEff).getD i default).effect_size) := by
  simp only [find_significant_categorical_continuous_pairs] at h ⊢
  split at h
  · simp at h
  · next hne =>
    rw [if_neg hne]
    have hrel := rowLE_consecutive_of_sorted _ i h
    rcases hrel with hlt | ⟨heq, hle⟩
    · refine ⟨le_of_lt hlt, fun heq => ?_⟩
      rw [heq] at hlt
      exact absurd hlt (lt_irrefl _)
    · exact ⟨le_of_eq heq, fun _ => hle⟩

/-- C4: `get_top_significant_pairs` returns the first `top_n` rows whose
`significant` and `meaningful` flags are both true; when no row has both
flags, it falls back to the first `top_n` rows of the full table; it never
returns more than `top_n` rows; and an empty table gives an empty result. -/
theorem C4_top_significant_pairs
    (mwu : List ℚ → List ℚ → Except String (ℚ × ℚ))
    (kw : List (List ℚ) → Except String (ℚ × ℚ))
    (df : DataFrame) (top_n : ℕ) (catArg contArg : Option (List String))
    (alpha minEff : ℚ) :
    (get_top_significant_pairs mwu kw df top_n catArg contArg alpha minEff =
      (if ((find_significant_categorical_continuous_pairs mwu kw df catArg
              contArg alpha minEff).filter
            fun r => r.significant && r.meaningful) = []
       then (find_significant_categorical_continuous_pairs mwu kw df catArg
              contArg alpha minEff).take top_n
       else ((find_significant_categorical_continuous_pairs mwu kw df catArg
              contArg alpha minEff).filter
            fun r => r.significant && r.meaningful).take top_n)) ∧
    (get_top_significant_pairs mwu kw df top_n catArg contArg alpha
        minEff).length ≤ top_n ∧
    (find_significant_categorical_continuous_pairs mwu kw df catArg contArg
        alpha minEff = [] →
      get_top_significant_pairs mwu kw df top_n catArg contArg alpha minEff
        = []) := by
  have hmain : get_top_significant_pairs mwu kw df top_n catArg contArg alpha minEff =
      (if ((find_significant_categorical_continuous_pairs mwu kw df catArg
              contArg alpha minEff).filter
            fun r => r.significant && r.meaningful) = []
       then (find_significant_categorical_continuous_pairs mwu kw df catArg
              contArg alpha minEff).take top_n
       else ((find_significant_categorical_continuous_pairs mwu kw df catArg
              contArg alpha minEff).filter
            fun r => r.significant && r.meaningful).take top_n) := by
    simp only [get_top_significant_pairs]
    by_cases h0 : (find_significant_categorical_continuous_pairs mwu kw df
        catArg contArg alpha minEff).length = 0
    · have hnil : find_significant_categorical_continuous_pairs mwu kw df
          catArg contArg alpha minEff = [] := List.length_eq_zero.mp h0
      rw [if_pos h0, hnil]
      simp
    · rw [if_neg h0]
      by_cases hf : ((find_significant_categorical_continuous_pairs mwu kw df
          catArg contArg alpha minEff).filter
            fun r => r.significant && r.meaningful).length = 0
      · rw [if_pos hf, if_pos (List.length_eq_zero.mp hf)]
      · rw [if_neg hf, if_neg (fun hh => hf (by rw [hh]; rfl))]
  refine ⟨hmain, ?_, ?_⟩
  · rw [hmain]
    split
    · exact List.length_take_le _ _
    · exact List.length_take_le _ _
  · intro hnil
    rw [hmain, hnil]
    simp

/-- C10 (amended): an explicitly passed empty role list is replaced by the
auto-detected list only when the other role argument is omitted (`None`);
when both role arguments are explicitly provided, an empty list is kept,
and the resulting table is empty. -/
theorem C10_empty_role_list_handling
    (mwu : List ℚ → List ℚ → Except String (ℚ × ℚ))
    (kw : List (List ℚ) → Except String (ℚ × ℚ))
    (df : DataFrame) (alpha minEff : ℚ) :
    (find_significant_categorical_continuous_pairs mwu kw df (some []) none
        alpha minEff =
      find_significant_categorical_continuous_pairs mwu kw df none none
        alpha minEff) ∧
    (find_significant_categorical_continuous_pairs mwu kw df none (some [])
        alpha minEff =
      find_significant_categorical_continuous_pairs mwu kw df none none
        alpha minEff) ∧
    (∀ conts : List String,
      find_significant_categorical_continuous_pairs mwu kw df (some [])
        (some conts) alpha minEff = []) ∧
    (∀ cats : List String,
      find_significant_categorical_continuous_pairs mwu kw df (some cats)
        (some []) alpha minEff = []) := by
  refine ⟨?_, ?_, ?_, ?_⟩
  · simp [find_significant_categorical_continuous_pairs, resolveRoles, pyOrList]
  · simp [find_significant_categorical_continuous_pairs, resolveRoles, pyOrList]
  · intro conts
    simp [find_significant_categorical_continuous_pairs, resolveRoles, pyOrList]
  · intro cats
    have hnil : (cats.flatMap fun _ => ([] : List ResultRow)) = [] := by
      induction cats with
      | nil => rfl
      | cons a t ih =>
          simp only [List.flatMap_cons, List.nil_append]
          exact ih
    simp [find_significant_categorical_continuous_pairs, resolveRoles, pyOrList,
      hnil]

end JarvAIs

namespace JarvAIs

/-- Summing an indicator over a duplicate-free key list containing the key
yields the indicated value. -/
theorem sum_map_ite_eq {α : Type} [DecidableEq α]
    (ks : List α) (hnd : ks.Nodup) (a : α) (ha : a ∈ ks) (c : ℚ) :
    (ks.map fun k => if a = k then c else 0).sum = c := by
  induction ks with
  | nil => cases ha
  | cons b t ih =>
    rcases List.mem_cons.mp ha with rfl | hat
    · have hnb : a ∉ t := (List.nodup_cons.mp hnd).1
      have ht : (t.map fun k => if a = k then c else 0).sum = 0 := by
        apply List.sum_eq_zero
        intro x hx
        obtain ⟨k, hk, rfl⟩ := List.mem_map.mp hx
        rw [if_neg]
        rintro rfl
        exact hnb hk
      simp [ht]
    · have hba : ¬ a = b := by
        rintro rfl
        exact (List.nodup_cons.mp hnd).1 hat
      simp only [List.map_cons, List.sum_cons, if_neg hba, zero_add]
      exact ih (List.nodup_cons.mp hnd).2 hat

/-- Summing a function group-by-group over a duplicate-free key list that
covers every row's key equals summing it over all rows. -/
theorem sum_fiberwise_groupOf {α : Type} [DecidableEq α]
    (l : List (α × ℚ)) (ks : List α) (hnd : ks.Nodup)
    (hcov : ∀ p ∈ l, p.1 ∈ ks) (f : ℚ → ℚ) :
    (ks.map fun k => ((groupOf l k).map f).sum).sum
      = (l.map fun p => f p.2).sum := by
  induction l with
  | nil => simp [groupOf]
  | cons p t ih =>
    have hstep : ∀ k, ((groupOf (p :: t) k).map f).sum =
        (if p.1 = k then f p.2 else 0) + ((groupOf t k).map f).sum := by
      intro k
      simp only [groupOf, List.filter_cons]
      by_cases hk : p.1 = k
      · simp [hk]
      · simp [hk]
    have hrw : (ks.map fun k => ((groupOf (p :: t) k).map f).sum) =
        ks.map fun k =>
          (if p.1 = k then f p.2 else 0) + ((groupOf t k).map f).sum :=
      List.map_congr_left fun k _ => hstep k
    rw [hrw, List.sum_map_add,
      sum_map_ite_eq ks hnd p.1 (hcov p (List.mem_cons_self p t)) (f p.2),
      ih fun q hq => hcov q (List.mem_cons_of_mem p hq)]
    simp

/-- Summing a constant over a list multiplies it by the length. -/
theorem sum_map_const_rat (g : List ℚ) (c : ℚ) :
    (g.map fun _ => c).sum = (g.length : ℚ) * c := by
  induction g with
  | nil => simp
  | cons x t ih =>
    simp only [List.map_cons, List.sum_cons, List.length_cons, ih]
    push_cast
    ring

/-- Subtracting a constant pointwise shifts a sum by length times the
constant. -/
theorem sum_map_sub_const (g : List ℚ) (c : ℚ) :
    (g.map fun x => x - c).sum = g.sum - (g.length : ℚ) * c := by
  induction g with
  | nil => simp
  | cons x t ih =>
    simp only [List.map_cons, List.sum_cons, List.length_cons, ih]
    push_cast
    ring

/-- The deviations of a non-empty list from its own mean sum to zero. -/
theorem sum_sub_mean (g : List ℚ) (hne : g ≠ []) :
    (g.map fun x => x - mean g).sum = 0 := by
  have hlen : (g.length : ℚ) ≠ 0 := by
    have := List.length_pos.mpr hne
    exact_mod_cast Nat.pos_iff_ne_zero.mp this
  rw [sum_map_sub_const, mean]
  field_simp

/-- Per-group step of the ANOVA decomposition: the squared deviation of a
group mean from the grand mean, scaled by group size, is at most the
group's total squared deviation from the grand mean. -/
theorem group_term_le (g : List ℚ) (hne : g ≠ []) (mu : ℚ) :
    (g.length : ℚ) * (mean g - mu) ^ 2 ≤ (g.map fun x => (x - mu) ^ 2).sum := by
  have hdecomp : (g.map fun x => (x - mu) ^ 2).sum
      = (g.map fun x => (x - mean g) ^ 2).sum
        + ((2 * (mean g - mu)) * (g.map fun x => x - mean g).sum
           + (g.length : ℚ) * (mean g - mu) ^ 2) := by
    have h1 : (g.map fun x => (x - mu) ^ 2)
        = g.map fun x => (x - mean g) ^ 2
            + ((2 * (mean g - mu)) * (x - mean g) + (mean g - mu) ^ 2) :=
      List.map_congr_left fun x _ => by ring
    rw [h1, List.sum_map_add, List.sum_map_add, List.sum_map_mul_left,
      sum_map_const_rat]
  have hsq : 0 ≤ (g.map fun x => (x - mean g) ^ 2).sum := by
    apply List.sum_nonneg
    intro x hx
    obtain ⟨y, _, rfl⟩ := List.mem_map.mp hx
    positivity
  rw [hdecomp, sum_sub_mean g hne]
  linarith

/-- The sorted key list has no duplicates. -/
theorem keyList_nodup {α : Type} [LinearOrder α] [DecidableEq α]
    (l : List (α × ℚ)) : (keyList l).Nodup :=
  ((List.perm_insertionSort _ _).nodup_iff).mpr (List.nodup_dedup _)

/-- Every row's key appears in the key list. -/
theorem mem_keyList {α : Type} [LinearOrder α] [DecidableEq α]
    {l : List (α × ℚ)} {p : α × ℚ} (hp : p ∈ l) : p.1 ∈ keyList l :=
  (List.perm_insertionSort _ _).mem_iff.mpr
    (List.mem_dedup.mpr (List.mem_map_of_mem _ hp))

/-- Groups built from keys of the key list are non-empty. -/
theorem groupOf_ne_nil {α : Type} [LinearOrder α] [DecidableEq α]
    (l : List (α × ℚ)) (k : α) (hk : k ∈ keyList l) : groupOf l k ≠ [] := by
  have hk1 : k ∈ (l.map Prod.fst).dedup :=
    (List.perm_insertionSort _ _).mem_iff.mp hk
  have hk2 : k ∈ l.map Prod.fst := List.mem_dedup.mp hk1
  obtain ⟨p, hp, rfl⟩ := List.mem_map.mp hk2
  intro hnil
  have hmem : p ∈ l.filter fun q => q.1 = p.1 :=
    List.mem_filter.mpr ⟨hp, by simp⟩
  rw [groupOf, List.map_eq_nil_iff] at hnil
  rw [hnil] at hmem
  cases hmem

/-- Between-group sum of squares never exceeds the total sum of squares
(ANOVA decomposition). -/
theorem ssBetween_le_ssTotal {α : Type} [LinearOrder α] [DecidableEq α]
    (l : List (α × ℚ)) :
    ssBetween (groupsOf l) (mean (l.map Prod.snd))
      ≤ ssTotal (l.map Prod.snd) (mean (l.map Prod.snd)) := by
  have h1 : ssBetween (groupsOf l) (mean (l.map Prod.snd))
      = ((keyList l).map fun k =>
          ((groupOf l k).length : ℚ)
            * (mean (groupOf l k) - mean (l.map Prod.snd)) ^ 2).sum := by
    rw [ssBetween, groupsOf, List.map_map]
    rfl
  have h2 : ssTotal (l.map Prod.snd) (mean (l.map Prod.snd))
      = ((keyList l).map fun k =>
          ((groupOf l k).map fun x => (x - mean (l.map Prod.snd)) ^ 2).sum).sum := by
    rw [sum_fiberwise_groupOf l (keyList l) (keyList_nodup l)
      (fun p hp => mem_keyList hp) (fun x => (x - mean (l.map Prod.snd)) ^ 2)]
    rw [ssTotal, List.map_map]
    rfl
  rw [h1, h2]
  apply List.sum_le_sum
  intro k hk
  exact group_term_le _ (groupOf_ne_nil l k hk) _

/-- The between-group sum of squares is non-negative. -/
theorem ssBetween_nonneg (gs : List (List ℚ)) (mu : ℚ) :
    0 ≤ ssBetween gs mu := by
  apply List.sum_nonneg
  intro x hx
  obtain ⟨g, _, rfl⟩ := List.mem_map.mp hx
  positivity

/-- The total sum of squares is non-negative. -/
theorem ssTotal_nonneg (vals : List ℚ) (mu : ℚ) : 0 ≤ ssTotal vals mu := by
  apply List.sum_nonneg
  intro x hx
  obtain ⟨v, _, rfl⟩ := List.mem_map.mp hx
  positivity

/-- C5: with at least 2 groups and at least 3 complete rows, the
eta-squared effect size lies in [0, 1], and a zero total sum of squares
gives effect size exactly 0 (no division error). -/
theorem C5_effect_size_unit_interval {α : Type} [LinearOrder α] [DecidableEq α]
    (rows : List (Option α × Option ℚ))
    (_hg : 2 ≤ (groupsOf (cleanPairs rows)).length)
    (hn : 3 ≤ (cleanPairs rows).length) :
    0 ≤ calculate_effect_size rows ∧ calculate_effect_size rows ≤ 1 ∧
    (ssTotal ((cleanPairs rows).map Prod.snd)
        (mean ((cleanPairs rows).map Prod.snd)) = 0 →
      calculate_effect_size rows = 0) := by
  have hn' : ¬ (cleanPairs rows).length < 3 := by omega
  simp only [calculate_effect_size, if_neg hn']
  by_cases hsst : ssTotal ((cleanPairs rows).map Prod.snd)
      (mean ((cleanPairs rows).map Prod.snd)) = 0
  · rw [if_pos hsst]
    exact ⟨le_refl 0, zero_le_one, fun _ => rfl⟩
  · rw [if_neg hsst]
    have hpos : 0 < ssTotal ((cleanPairs rows).map Prod.snd)
        (mean ((cleanPairs rows).map Prod.snd)) :=
      lt_of_le_of_ne (ssTotal_nonneg _ _) (Ne.symm hsst)
    refine ⟨div_nonneg (ssBetween_nonneg _ _) (le_of_lt hpos),
      (div_le_one hpos).mpr (ssBetween_le_ssTotal _),
      fun h => absurd h hsst⟩

end JarvAIs

namespace JarvAIs

/-- `listMin` of a non-empty list is an element and a lower bound. -/
theorem foldl_min_spec (t : List ℚ) :
    ∀ a : ℚ, (t.foldl min a = a ∨ t.foldl min a ∈ t) ∧
      t.foldl min a ≤ a ∧ ∀ x ∈ t, t.foldl min a ≤ x := by
  induction t with
  | nil => intro a; exact ⟨Or.inl rfl, le_refl a, by simp⟩
  | cons y ys ih =>
    intro a
    obtain ⟨hmem, hle, hall⟩ := ih (min a y)
    refine ⟨?_, ?_, ?_⟩
    · rcases hmem with heq | hmem
      · rcases min_choice a y with hmin | hmin
        · exact Or.inl (by rw [List.foldl_cons, heq, hmin])
        · exact Or.inr (by rw [List.foldl_cons, heq, hmin]; exact List.mem_cons_self y ys)
      · exact Or.inr (List.mem_cons_of_mem y hmem)
    · exact le_trans hle (min_le_left a y)
    · intro x hx
      rcases List.mem_cons.mp hx with rfl | hx
      · exact le_trans hle (min_le_right a x)
      · exact hall x hx

/-- `listMax` mirror of `foldl_min_spec`. -/
theorem foldl_max_spec (t : List ℚ) :
    ∀ a : ℚ, (t.foldl max a = a ∨ t.foldl max a ∈ t) ∧
      a ≤ t.foldl max a ∧ ∀ x ∈ t, x ≤ t.foldl max a := by
  induction t with
  | nil => intro a; exact ⟨Or.inl rfl, le_refl a, by simp⟩
  | cons y ys ih =>
    intro a
    obtain ⟨hmem, hle, hall⟩ := ih (max a y)
    refine ⟨?_, ?_, ?_⟩
    · rcases hmem with heq | hmem
      · rcases max_choice a y with hmax | hmax
        · exact Or.inl (by rw [List.foldl_cons, heq, hmax])
        · exact Or.inr (by rw [List.foldl_cons, heq, hmax]; exact List.mem_cons_self y ys)
      · exact Or.inr (List.mem_cons_of_mem y hmem)
    · exact le_trans (le_max_left a y) hle
    · intro x hx
      rcases List.mem_cons.mp hx with rfl | hx
      · exact le_trans (le_max_right a x) hle
      · exact hall x hx

/-- The minimum of a non-empty list is an element of it. -/
theorem listMin_mem (l : List ℚ) (hne : l ≠ []) : listMin l ∈ l := by
  match l with
  | [] => exact absurd rfl hne
  | x :: xs =>
    rcases (foldl_min_spec xs x).1 with heq | hmem
    · rw [listMin, heq]; exact List.mem_cons_self x xs
    · exact List.mem_cons_of_mem x hmem

/-- The minimum of a list bounds every element from below. -/
theorem listMin_le (l : List ℚ) (x : ℚ) (hx : x ∈ l) : listMin l ≤ x := by
  match l with
  | [] => cases hx
  | y :: ys =>
    rcases List.mem_cons.mp hx with rfl | hx
    · exact (foldl_min_spec ys x).2.1
    · exact (foldl_min_spec ys y).2.2 x hx

/-- The maximum of a non-empty list is an element of it. -/
theorem listMax_mem (l : List ℚ) (hne : l ≠ []) : listMax l ∈ l := by
  match l with
  | [] => exact absurd rfl hne
  | x :: xs =>
    rcases (foldl_max_spec xs x).1 with heq | hmem
    · rw [listMax, heq]; exact List.mem_cons_self x xs
    · exact List.mem_cons_of_mem x hmem

/-- The maximum of a list bounds every element from above. -/
theorem le_listMax (l : List ℚ) (x : ℚ) (hx : x ∈ l) : x ≤ listMax l := by
  match l with
  | [] => cases hx
  | y :: ys =>
    rcases List.mem_cons.mp hx with rfl | hx
    · exact (foldl_max_spec ys x).2.1
    · exact (foldl_max_spec ys y).2.2 x hx

/-- Elements of an ascending-sorted list are monotone in the index. -/
theorem sorted_getD_mono (s : List ℚ) (hs : List.Sorted (· ≤ ·) s) (i j : ℕ)
    (hij : i ≤ j) (hj : j < s.length) : s.getD i 0 ≤ s.getD j 0 := by
  have hi : i < s.length := lt_of_le_of_lt hij hj
  rw [List.getD_eq_getElem s 0 hi, List.getD_eq_getElem s 0 hj]
  rcases Nat.lt_or_ge i j with hlt | hge
  · have hrel := List.pairwise_iff_get.mp hs ⟨i, hi⟩ ⟨j, hj⟩ (Fin.mk_lt_mk.mpr hlt)
    simpa using hrel
  · have heq : i = j := le_antisymm hij hge
    subst heq
    rfl

/-- Linear interpolation between two consecutive sorted entries stays
between them. -/
theorem interp_bounds (s : List ℚ) (hs : List.Sorted (· ≤ ·) s) (h : ℚ)
    (h0 : 0 ≤ h) (h1 : h ≤ (s.length : ℚ) - 1) :
    s.getD (Int.floor h).toNat 0
      ≤ s.getD (Int.floor h).toNat 0
        + (h - ((Int.floor h).toNat : ℚ))
          * (s.getD (Int.ceil h).toNat 0 - s.getD (Int.floor h).toNat 0)
    ∧ s.getD (Int.floor h).toNat 0
        + (h - ((Int.floor h).toNat : ℚ))
          * (s.getD (Int.ceil h).toNat 0 - s.getD (Int.floor h).toNat 0)
      ≤ s.getD (Int.ceil h).toNat 0 := by
  have hf0 : (0 : ℤ) ≤ Int.floor h := Int.floor_nonneg.mpr h0
  have hclen : Int.ceil h ≤ (s.length : ℤ) - 1 := by
    rw [Int.ceil_le]
    push_cast
    exact h1
  have hlen1 : 1 ≤ s.length := by
    by_contra hcon
    have : s.length = 0 := by omega
    rw [this] at h1
    norm_num at h1
    linarith
  have hilen : (Int.ceil h).toNat < s.length := by omega
  have hfle : Int.floor h ≤ Int.ceil h := Int.floor_le_ceil h
  have hab : s.getD (Int.floor h).toNat 0 ≤ s.getD (Int.ceil h).toNat 0 :=
    sorted_getD_mono s hs _ _ (by omega) hilen
  have hcast : ((Int.floor h).toNat : ℚ) = ((Int.floor h : ℤ) : ℚ) := by
    exact_mod_cast congrArg (fun z : ℤ => (z : ℚ)) (Int.toNat_of_nonneg hf0)
  have hfrac0 : 0 ≤ h - ((Int.floor h).toNat : ℚ) := by
    rw [hcast]
    have := Int.floor_le h
    linarith
  have hfrac1 : h - ((Int.floor h).toNat : ℚ) ≤ 1 := by
    rw [hcast]
    have := Int.lt_floor_add_one h
    push_cast at this ⊢
    linarith
  constructor
  · nlinarith [mul_nonneg hfrac0 (sub_nonneg.mpr hab)]
  · nlinarith [mul_le_of_le_one_left (sub_nonneg.mpr hab) hfrac1]

/-- `quantile` unfolded to its interpolation formula over the sorted
values. -/
theorem quantile_eq (vals : List ℚ) (q : ℚ) :
    quantile vals q =
      (sortQ vals).getD (Int.floor (q * (((sortQ vals).length : ℚ) - 1))).toNat 0
        + (q * (((sortQ vals).length : ℚ) - 1)
            - ((Int.floor (q * (((sortQ vals).length : ℚ) - 1))).toNat : ℚ))
          * ((sortQ vals).getD
              (Int.ceil (q * (((sortQ vals).length : ℚ) - 1))).toNat 0
            - (sortQ vals).getD
              (Int.floor (q * (((sortQ vals).length : ℚ) - 1))).toNat 0) := rfl

/-- The sorted copy of the values is sorted. -/
theorem sortQ_sorted (vals : List ℚ) : List.Sorted (· ≤ ·) (sortQ vals) :=
  List.sorted_insertionSort _ vals

/-- Sorting preserves length. -/
theorem sortQ_length (vals : List ℚ) : (sortQ vals).length = vals.length :=
  (List.perm_insertionSort _ vals).length_eq

/-- Sorting preserves membership. -/
theorem sortQ_mem {vals : List ℚ} {x : ℚ} (hx : x ∈ sortQ vals) : x ∈ vals :=
  (List.perm_insertionSort _ vals).mem_iff.mp hx

/-- A quantile with parameter in [0,1] lies between the sorted entries at
the floor and ceiling interpolation indices. -/
theorem quantile_between (vals : List ℚ) (hne : vals ≠ []) (q : ℚ)
    (hq0 : 0 ≤ q) (hq1 : q ≤ 1) :
    (sortQ vals).getD (Int.floor (q * (((sortQ vals).length : ℚ) - 1))).toNat 0
        ≤ quantile vals q
    ∧ quantile vals q ≤
      (sortQ vals).getD (Int.ceil (q * (((sortQ vals).length : ℚ) - 1))).toNat 0 := by
  have hlen : 1 ≤ (sortQ vals).length := by
    rw [sortQ_length]
    exact List.length_pos.mpr hne
  have hd0 : (0 : ℚ) ≤ ((sortQ vals).length : ℚ) - 1 := by
    have : (1 : ℚ) ≤ ((sortQ vals).length : ℚ) := by exact_mod_cast hlen
    linarith
  have h0 : 0 ≤ q * (((sortQ vals).length : ℚ) - 1) := mul_nonneg hq0 hd0
  have h1 : q * (((sortQ vals).length : ℚ) - 1) ≤ ((sortQ vals).length : ℚ) - 1 :=
    mul_le_of_le_one_left hd0 hq1
  have := interp_bounds (sortQ vals) (sortQ_sorted vals) _ h0 h1
  rw [quantile_eq]
  exact this

/-- Linear interpolation over a sorted list is monotone in the
interpolation position. -/
theorem interp_mono (s : List ℚ) (hs : List.Sorted (· ≤ ·) s) (h h2 : ℚ)
    (h0 : 0 ≤ h) (hhh : h ≤ h2) (h1 : h2 ≤ (s.length : ℚ) - 1) :
    s.getD (Int.floor h).toNat 0
      + (h - ((Int.floor h).toNat : ℚ))
        * (s.getD (Int.ceil h).toNat 0 - s.getD (Int.floor h).toNat 0)
    ≤ s.getD (Int.floor h2).toNat 0
      + (h2 - ((Int.floor h2).toNat : ℚ))
        * (s.getD (Int.ceil h2).toNat 0 - s.getD (Int.floor h2).toNat 0) := by
  have h02 : 0 ≤ h2 := le_trans h0 hhh
  have h1h : h ≤ (s.length : ℚ) - 1 := le_trans hhh h1
  have hf0 : (0 : ℤ) ≤ Int.floor h := Int.floor_nonneg.mpr h0
  have hf0' : (0 : ℤ) ≤ Int.floor h2 := Int.floor_nonneg.mpr h02
  have hclen : Int.ceil h ≤ (s.length : ℤ) - 1 := by
    rw [Int.ceil_le]; push_cast; exact h1h
  have hclen' : Int.ceil h2 ≤ (s.length : ℤ) - 1 := by
    rw [Int.ceil_le]; push_cast; exact h1
  have hflen' : Int.floor h2 ≤ (s.length : ℤ) - 1 :=
    le_trans (Int.floor_le_ceil h2) hclen'
  have hlen1 : 1 ≤ s.length := by
    by_contra hcon
    have hz : s.length = 0 := by omega
    rw [hz] at h1
    norm_num at h1
    linarith
  have hcastf : ((Int.floor h).toNat : ℚ) = ((Int.floor h : ℤ) : ℚ) := by
    exact_mod_cast congrArg (fun z : ℤ => (z : ℚ)) (Int.toNat_of_nonneg hf0)
  have hcastf' : ((Int.floor h2).toNat : ℚ) = ((Int.floor h2 : ℤ) : ℚ) := by
    exact_mod_cast congrArg (fun z : ℤ => (z : ℚ)) (Int.toNat_of_nonneg hf0')
  rcases lt_or_eq_of_le (Int.floor_le_floor hhh) with hfl | hfl
  · -- strictly later cell: pass through the intermediate sorted entries
    have hstep1 : s.getD (Int.floor h).toNat 0
        + (h - ((Int.floor h).toNat : ℚ))
          * (s.getD (Int.ceil h).toNat 0 - s.getD (Int.floor h).toNat 0)
        ≤ s.getD (Int.ceil h).toNat 0 :=
      (interp_bounds s hs h h0 h1h).2
    have hstep3 : s.getD (Int.floor h2).toNat 0
        ≤ s.getD (Int.floor h2).toNat 0
          + (h2 - ((Int.floor h2).toNat : ℚ))
            * (s.getD (Int.ceil h2).toNat 0 - s.getD (Int.floor h2).toNat 0) :=
      (interp_bounds s hs h2 h02 h1).1
    have hidx : (Int.ceil h).toNat ≤ (Int.floor h2).toNat := by
      have hcf : Int.ceil h ≤ Int.floor h + 1 := Int.ceil_le_floor_add_one h
      omega
    have hstep2 : s.getD (Int.ceil h).toNat 0 ≤ s.getD (Int.floor h2).toNat 0 :=
      sorted_getD_mono s hs _ _ hidx (by omega)
    linarith
  · -- same floor
    by_cases hcl : Int.ceil h = Int.ceil h2
    · -- same cell: monotone in the fractional part
      have hilen : (Int.ceil h2).toNat < s.length := by omega
      have hab : s.getD (Int.floor h2).toNat 0 ≤ s.getD (Int.ceil h2).toNat 0 :=
        sorted_getD_mono s hs _ _
          (by have := Int.floor_le_ceil h2; omega) hilen
      rw [hfl, hcl]
      have hBA : 0 ≤ s.getD (Int.ceil h2).toNat 0 - s.getD (Int.floor h2).toNat 0 :=
        sub_nonneg.mpr hab
      nlinarith [mul_le_mul_of_nonneg_right
        (sub_le_sub_right hhh (((Int.floor h2).toNat : ℚ))) hBA]
    · -- same floor, different ceiling: h must be exactly its floor
      have hint : h = ((Int.floor h : ℤ) : ℚ) := by
        by_contra hne2
        have hlt : ((Int.floor h : ℤ) : ℚ) < h :=
          lt_of_le_of_ne (Int.floor_le h) (Ne.symm hne2)
        have hc1 : Int.ceil h = Int.floor h + 1 := by
          have hgt : Int.floor h < Int.ceil h := by
            have hq : ((Int.floor h : ℤ) : ℚ) < ((Int.ceil h : ℤ) : ℚ) :=
              lt_of_lt_of_le hlt (Int.le_ceil h)
            exact_mod_cast hq
          have := Int.ceil_le_floor_add_one h
          omega
        have hlt2 : ((Int.floor h2 : ℤ) : ℚ) < h2 := by
          rw [← hfl]
          exact lt_of_lt_of_le hlt hhh
        have hc2 : Int.ceil h2 = Int.floor h2 + 1 := by
          have hgt : Int.floor h2 < Int.ceil h2 := by
            have hq : ((Int.floor h2 : ℤ) : ℚ) < ((Int.ceil h2 : ℤ) : ℚ) :=
              lt_of_lt_of_le hlt2 (Int.le_ceil h2)
            exact_mod_cast hq
          have := Int.ceil_le_floor_add_one h2
          omega
        rw [hc1, hc2, hfl] at hcl
        exact hcl rfl
      have hzero : h - ((Int.floor h).toNat : ℚ) = 0 := by
        rw [hcastf, ← hint]
        ring
      rw [hzero, zero_mul, add_zero, hfl]
      exact (interp_bounds s hs h2 h02 h1).1

/-- `quantile` is monotone in the quantile parameter. -/
theorem quantile_mono (vals : List ℚ) (hne : vals ≠ []) (q q2 : ℚ)
    (hq0 : 0 ≤ q) (hq21 : q2 ≤ 1) (hqq : q ≤ q2) :
    quantile vals q ≤ quantile vals q2 := by
  have hlen : 1 ≤ (sortQ vals).length := by
    rw [sortQ_length]
    exact List.length_pos.mpr hne
  have hd0 : (0 : ℚ) ≤ ((sortQ vals).length : ℚ) - 1 := by
    have h1q : (1 : ℚ) ≤ ((sortQ vals).length : ℚ) := by exact_mod_cast hlen
    linarith
  rw [quantile_eq, quantile_eq]
  exact interp_mono (sortQ vals) (sortQ_sorted vals) _ _
    (mul_nonneg hq0 hd0)
    (mul_le_mul_of_nonneg_right hqq hd0)
    (mul_le_of_le_one_left hd0 hq21)

/-- Quartiles are ordered: q1 ≤ median ≤ q3. -/
theorem quartiles_mono (vals : List ℚ) (hne : vals ≠ []) :
    quantile vals (1/4) ≤ quantile vals (1/2) ∧
    quantile vals (1/2) ≤ quantile vals (3/4) := by
  constructor
  · exact quantile_mono vals hne (1/4) (1/2) (by norm_num) (by norm_num) (by norm_num)
  · exact quantile_mono vals hne (1/2) (3/4) (by norm_num) (by norm_num) (by norm_num)

/-- A sorted entry at a valid index is one of the original values. -/
theorem sortQ_getD_mem (vals : List ℚ) (i : ℕ) (hi : i < (sortQ vals).length) :
    (sortQ vals).getD i 0 ∈ vals := by
  rw [List.getD_eq_getElem _ _ hi]
  exact sortQ_mem (List.getElem_mem hi)

/-- With at least 2 observations, some value lies inside the IQR fence
`[q1 - 1.5*IQR, q3 + 1.5*IQR]`. -/
theorem exists_in_fence (vals : List ℚ) (h2 : 2 ≤ vals.length) :
    ∃ v ∈ vals,
      quantile vals (1/4)
          - 3/2 * (quantile vals (3/4) - quantile vals (1/4)) ≤ v
      ∧ v ≤ quantile vals (3/4)
          + 3/2 * (quantile vals (3/4) - quantile vals (1/4)) := by
  have hne : vals ≠ [] := by
    intro hn
    rw [hn] at h2
    simp at h2
  have hlen : (sortQ vals).length = vals.length := sortQ_length vals
  have hq13 : quantile vals (1/4) ≤ quantile vals (3/4) :=
    le_trans (quartiles_mono vals hne).1 (quartiles_mono vals hne).2
  have hiqr : 0 ≤ quantile vals (3/4) - quantile vals (1/4) :=
    sub_nonneg.mpr hq13
  rcases eq_or_lt_of_le h2 with h2eq | h3le
  · -- exactly two observations: both values are inside the fence
    have hs2 : (sortQ vals).length = 2 := by omega
    have e1 : (1/4 : ℚ) * (((sortQ vals).length : ℚ) - 1) = 1/4 := by
      rw [hs2]; norm_num
    have e3 : (3/4 : ℚ) * (((sortQ vals).length : ℚ) - 1) = 3/4 := by
      rw [hs2]; norm_num
    have hf1 : Int.floor ((1:ℚ)/4) = 0 := by norm_num
    have hc1 : Int.ceil ((1:ℚ)/4) = 1 := by
      rw [Int.ceil_eq_iff]
      norm_num
    have hf3 : Int.floor ((3:ℚ)/4) = 0 := by norm_num
    have hc3 : Int.ceil ((3:ℚ)/4) = 1 := by
      rw [Int.ceil_eq_iff]
      norm_num
    have hq1 : quantile vals (1/4) =
        (sortQ vals).getD 0 0
          + (1/4) * ((sortQ vals).getD 1 0 - (sortQ vals).getD 0 0) := by
      rw [quantile_eq, e1]
      norm_num [hf1, hc1]
    have hq3 : quantile vals (3/4) =
        (sortQ vals).getD 0 0
          + (3/4) * ((sortQ vals).getD 1 0 - (sortQ vals).getD 0 0) := by
      rw [quantile_eq, e3]
      norm_num [hf3, hc3]
    have hab : (sortQ vals).getD 0 0 ≤ (sortQ vals).getD 1 0 :=
      sorted_getD_mono (sortQ vals) (sortQ_sorted vals) 0 1 (by omega) (by omega)
    refine ⟨(sortQ vals).getD 0 0, sortQ_getD_mem vals 0 (by omega), ?_, ?_⟩
    · rw [hq1, hq3]
      nlinarith
    · rw [hq1, hq3]
      nlinarith
  · -- three or more observations: the entry at the q1 ceiling index works
    have h3 : 3 ≤ (sortQ vals).length := by omega
    have hd2 : (2 : ℚ) ≤ ((sortQ vals).length : ℚ) - 1 := by
      have : (3 : ℚ) ≤ ((sortQ vals).length : ℚ) := by exact_mod_cast h3
      linarith
    have hd0 : (0 : ℚ) ≤ ((sortQ vals).length : ℚ) - 1 := by linarith
    have h10 : (0:ℚ) ≤ (1/4 : ℚ) * (((sortQ vals).length : ℚ) - 1) := by positivity
    have h30 : (0:ℚ) ≤ (3/4 : ℚ) * (((sortQ vals).length : ℚ) - 1) := by positivity
    have hf30 : (0 : ℤ) ≤ Int.floor ((3/4 : ℚ) * (((sortQ vals).length : ℚ) - 1)) :=
      Int.floor_nonneg.mpr h30
    have hc10 : (0 : ℤ) ≤ Int.ceil ((1/4 : ℚ) * (((sortQ vals).length : ℚ) - 1)) :=
      Int.ceil_nonneg h10
    have hidx : Int.ceil ((1/4 : ℚ) * (((sortQ vals).length : ℚ) - 1))
        ≤ Int.floor ((3/4 : ℚ) * (((sortQ vals).length : ℚ) - 1)) := by
      by_contra hcon
      push_neg at hcon
      have h1q := Int.ceil_lt_add_one ((1/4 : ℚ) * (((sortQ vals).length : ℚ) - 1))
      have h3q := Int.sub_one_lt_floor ((3/4 : ℚ) * (((sortQ vals).length : ℚ) - 1))
      have hcq : ((Int.floor ((3/4 : ℚ) * (((sortQ vals).length : ℚ) - 1)) : ℤ) : ℚ) + 1
          ≤ ((Int.ceil ((1/4 : ℚ) * (((sortQ vals).length : ℚ) - 1)) : ℤ) : ℚ) := by
        exact_mod_cast hcon
      nlinarith
    have hflen : Int.floor ((3/4 : ℚ) * (((sortQ vals).length : ℚ) - 1))
        ≤ ((sortQ vals).length : ℤ) - 1 := by
      have hle : (3/4 : ℚ) * (((sortQ vals).length : ℚ) - 1)
          ≤ ((sortQ vals).length : ℚ) - 1 := by nlinarith
      have hfix : Int.floor (((sortQ vals).length : ℚ) - 1)
          = ((sortQ vals).length : ℤ) - 1 := by
        rw [show ((sortQ vals).length : ℚ) - 1
            = ((sortQ vals).length : ℚ) - ((1 : ℤ) : ℚ) by push_cast; ring,
          Int.floor_sub_int, Int.floor_natCast]
      exact le_trans (Int.floor_le_floor hle) (le_of_eq hfix)
    have hcn : (Int.ceil ((1/4 : ℚ) * (((sortQ vals).length : ℚ) - 1))).toNat
        < (sortQ vals).length := by omega
    refine ⟨(sortQ vals).getD
        (Int.ceil ((1/4 : ℚ) * (((sortQ vals).length : ℚ) - 1))).toNat 0,
      sortQ_getD_mem vals _ hcn, ?_, ?_⟩
    · have hlow : quantile vals (1/4) ≤ (sortQ vals).getD
          (Int.ceil ((1/4 : ℚ) * (((sortQ vals).length : ℚ) - 1))).toNat 0 :=
        (quantile_between vals hne (1/4) (by norm_num) (by norm_num)).2
      linarith
    · have hmid : (sortQ vals).getD
          (Int.ceil ((1/4 : ℚ) * (((sortQ vals).length : ℚ) - 1))).toNat 0
          ≤ (sortQ vals).getD
          (Int.floor ((3/4 : ℚ) * (((sortQ vals).length : ℚ) - 1))).toNat 0 :=
        sorted_getD_mono (sortQ vals) (sortQ_sorted vals) _ _ (by omega) (by omega)
      have hup : (sortQ vals).getD
          (Int.floor ((3/4 : ℚ) * (((sortQ vals).length : ℚ) - 1))).toNat 0
          ≤ quantile vals (3/4) :=
        (quantile_between vals hne (3/4) (by norm_num) (by norm_num)).1
      linarith

/-- Full specification of one box piece: the entry carries index `i`,
exists only for >1 observations, has ordered quartiles and whiskers, and
every outlier point of the piece lies strictly outside the whiskers. -/
theorem boxPiece_spec (i : ℕ) (vals : List ℚ) (e : BoxEntry)
    (he : e ∈ (boxPiece i vals).1) :
    e.x = i ∧ 1 < vals.length ∧
    e.q1 ≤ e.median ∧ e.median ≤ e.q3 ∧ e.low ≤ e.high ∧
    ∀ p ∈ (boxPiece i vals).2, p.2 < e.low ∨ e.high < p.2 := by
  by_cases hlen : 1 < vals.length
  · have hne : vals ≠ [] := by
      intro hn
      rw [hn] at hlen
      simp at hlen
    simp only [boxPiece, if_pos hlen] at he ⊢
    have hee := List.mem_singleton.mp he
    subst hee
    obtain ⟨w, hwv, hw1, hw2⟩ := exists_in_fence vals (by omega)
    have hwmem : w ∈ vals.filter fun v =>
        quantile vals (1/4) - 3/2 * (quantile vals (3/4) - quantile vals (1/4)) ≤ v
        ∧ v ≤ quantile vals (3/4) + 3/2 * (quantile vals (3/4) - quantile vals (1/4)) := by
      rw [List.mem_filter]
      exact ⟨hwv, decide_eq_true ⟨hw1, hw2⟩⟩
    have hfne : (vals.filter fun v =>
        quantile vals (1/4) - 3/2 * (quantile vals (3/4) - quantile vals (1/4)) ≤ v
        ∧ v ≤ quantile vals (3/4) + 3/2 * (quantile vals (3/4) - quantile vals (1/4))) ≠ [] :=
      List.ne_nil_of_mem hwmem
    have hfpos : 0 < (vals.filter fun v =>
        quantile vals (1/4) - 3/2 * (quantile vals (3/4) - quantile vals (1/4)) ≤ v
        ∧ v ≤ quantile vals (3/4) + 3/2 * (quantile vals (3/4) - quantile vals (1/4))).length :=
      List.length_pos.mpr hfne
    refine ⟨rfl, hlen, (quartiles_mono vals hne).1, (quartiles_mono vals hne).2, ?_, ?_⟩
    · simp only [if_pos hfpos]
      exact listMin_le _ _ (listMax_mem _ hfne)
    · intro p hp
      simp only [List.mem_map] at hp
      obtain ⟨v, hv, rfl⟩ := hp
      rw [List.mem_filter] at hv
      obtain ⟨hvv, hcond⟩ := hv
      have hcond2 : v < quantile vals (1/4)
            - 3/2 * (quantile vals (3/4) - quantile vals (1/4))
          ∨ quantile vals (3/4)
            + 3/2 * (quantile vals (3/4) - quantile vals (1/4)) < v :=
        of_decide_eq_true hcond
      simp only [if_pos hfpos]
      have hminmem := listMin_mem _ hfne
      have hmaxmem := listMax_mem _ hfne
      rw [List.mem_filter] at hminmem hmaxmem
      have hmin_lb := of_decide_eq_true hminmem.2
      have hmax_ub := of_decide_eq_true hmaxmem.2
      rcases hcond2 with hlo | hhi
      · exact Or.inl (lt_of_lt_of_le hlo hmin_lb.1)
      · exact Or.inr (lt_of_le_of_lt hmax_ub.2 hhi)
  · simp only [boxPiece, if_neg hlen] at he
    cases he

/-- Membership in the box series comes from some enumerated category's
piece. -/
theorem mem_boxData {α : Type} [LinearOrder α] [DecidableEq α]
    (rows : List (Option α × Option ℚ)) (e : BoxEntry) :
    e ∈ (get_box_plot_json rows).1 ↔
      ∃ p ∈ (boxCategories rows).enum,
        e ∈ (boxPiece p.1 (catVals rows p.2)).1 := by
  simp only [get_box_plot_json, List.mem_flatten, List.mem_map]
  constructor
  · rintro ⟨l, ⟨pr, ⟨p, hp, rfl⟩, rfl⟩, he⟩
    exact ⟨p, hp, he⟩
  · rintro ⟨p, hp, he⟩
    exact ⟨(boxPiece p.1 (catVals rows p.2)).1,
      ⟨boxPiece p.1 (catVals rows p.2), ⟨p, hp, rfl⟩, rfl⟩, he⟩

/-- Membership in the outlier series comes from some enumerated category's
piece. -/
theorem mem_outliersData {α : Type} [LinearOrder α] [DecidableEq α]
    (rows : List (Option α × Option ℚ)) (o : ℕ × ℚ) :
    o ∈ (get_box_plot_json rows).2 ↔
      ∃ p ∈ (boxCategories rows).enum,
        o ∈ (boxPiece p.1 (catVals rows p.2)).2 := by
  simp only [get_box_plot_json, List.mem_flatten, List.mem_map]
  constructor
  · rintro ⟨l, ⟨pr, ⟨p, hp, rfl⟩, rfl⟩, ho⟩
    exact ⟨p, hp, ho⟩
  · rintro ⟨p, hp, ho⟩
    exact ⟨(boxPiece p.1 (catVals rows p.2)).2,
      ⟨boxPiece p.1 (catVals rows p.2), ⟨p, hp, rfl⟩, rfl⟩, ho⟩

/-- An outlier point of a piece carries the piece's category index. -/
theorem boxPiece_outlier_fst (j : ℕ) (vals : List ℚ) (o : ℕ × ℚ)
    (ho : o ∈ (boxPiece j vals).2) : o.1 = j := by
  by_cases hlen : 1 < vals.length
  · simp only [boxPiece, if_pos hlen, List.mem_map] at ho
    obtain ⟨v, _, rfl⟩ := ho
    rfl
  · simp only [boxPiece, if_neg hlen] at ho
    cases ho

/-- C7 (amended): every box entry has ordered quartiles
(q1 ≤ median ≤ q3) and ordered whiskers (whisker_min ≤ whisker_max); every
outlier point that belongs to a box entry's category lies strictly outside
that entry's whiskers; and a category with at most one observation
produces no box entry at its index. -/
theorem C7_box_entries_amended {α : Type} [LinearOrder α] [DecidableEq α]
    (rows : List (Option α × Option ℚ)) :
    (∀ e ∈ (get_box_plot_json rows).1,
      e.q1 ≤ e.median ∧ e.median ≤ e.q3 ∧ e.low ≤ e.high ∧
      ∀ o ∈ (get_box_plot_json rows).2, o.1 = e.x →
        (o.2 < e.low ∨ e.high < o.2)) ∧
    (∀ ic ∈ (boxCategories rows).enum, (catVals rows ic.2).length ≤ 1 →
      ∀ e ∈ (get_box_plot_json rows).1, e.x ≠ ic.1) := by
  constructor
  · intro e he
    obtain ⟨p, hp, hpe⟩ := (mem_boxData rows e).mp he
    obtain ⟨hx, hlen, hq1, hq2, hlh, hout⟩ := boxPiece_spec p.1 _ e hpe
    refine ⟨hq1, hq2, hlh, ?_⟩
    intro o ho hox
    obtain ⟨p2, hp2, hpo⟩ := (mem_outliersData rows o).mp ho
    obtain ⟨i, c⟩ := p
    obtain ⟨i2, c2⟩ := p2
    have ho1 : o.1 = i2 := boxPiece_outlier_fst i2 _ o hpo
    have hi12 : i2 = i := ho1.symm.trans (hox.trans hx)
    subst hi12
    obtain ⟨hltc, hc⟩ := List.mem_enum hp
    obtain ⟨hltc2, hc2⟩ := List.mem_enum hp2
    have hcc : c2 = c := hc2.trans hc.symm
    subst hcc
    exact hout o hpo
  · intro ic hic hshort e he hex
    obtain ⟨p, hp, hpe⟩ := (mem_boxData rows e).mp he
    obtain ⟨hx, hlen, _⟩ := boxPiece_spec p.1 _ e hpe
    obtain ⟨i, c⟩ := p
    obtain ⟨j, d⟩ := ic
    have hij : i = j := hx.symm.trans hex
    subst hij
    obtain ⟨hlt1, h1⟩ := List.mem_enum hp
    obtain ⟨hlt2, h2⟩ := List.mem_enum hic
    have hcd : c = d := h1.trans h2.symm
    rw [hcd] at hlen
    simp only at hlen hshort
    omega

end JarvAIs

namespace JarvAIs

/-- Length of the `x < y` filter over `range N` is `min y N`. -/
theorem length_filter_range_lt (N y : ℕ) :
    ((List.range N).filter fun x => x < y).length = min y N := by
  induction N with
  | zero => simp
  | succ n ih =>
    rw [List.range_succ, List.filter_append, List.length_append, ih]
    by_cases hy : n < y
    · simp [List.filter_cons, hy]
      omega
    · simp [List.filter_cons, hy]
      omega

/-- Twice the sum of `range N` is `N * (N - 1)`. -/
theorem two_mul_sum_range (N : ℕ) : 2 * (List.range N).sum = N * (N - 1) := by
  induction N with
  | zero => rfl
  | succ n ih =>
    rw [List.range_succ, List.sum_append]
    simp only [List.sum_cons, List.sum_nil]
    cases n with
    | zero => rfl
    | succ m =>
      simp only [Nat.succ_sub_one] at ih ⊢
      calc 2 * ((List.range (m+1)).sum + (m + 1 + 0))
          = 2 * (List.range (m+1)).sum + 2 * (m+1) := by ring
        _ = (m+1) * m + 2 * (m+1) := by rw [ih]
        _ = (m + 2) * (m + 1) := by ring

/-- C8: the correlation-heatmap transform emits exactly `N*(N-1)/2`
triplets for an `N x N` matrix, each strictly lower-triangular
(`x < y`, with `y` the row index) and carrying the matrix entry rounded
to 2 decimals. -/
theorem C8_corr_heatmap_lower_triangle (corr : List (List ℚ)) :
    (corrHeatmapData corr).length = corr.length * (corr.length - 1) / 2 ∧
    ∀ t ∈ corrHeatmapData corr,
      t.1 < t.2.1 ∧ t.2.2 = round2 (matrixEntry corr t.2.1 t.1) := by
  constructor
  · have hlen : (corrHeatmapData corr).length = 2 * (List.range corr.length).sum / 2 := by
      rw [corrHeatmapData, List.length_flatMap]
      have hcong : (List.map
          (List.length ∘ fun y =>
            (((List.range corr.length).filter fun x => x < y).map fun x =>
              (x, y, round2 (matrixEntry corr y x))))
          (List.range corr.length))
          = (List.range corr.length).map id := by
        apply List.map_congr_left
        intro y hy
        have hyN : y < corr.length := List.mem_range.mp hy
        simp only [Function.comp, List.length_map, length_filter_range_lt, id_eq]
        omega
      rw [hcong, List.map_id]
      omega
    rw [hlen, two_mul_sum_range]
  · intro t ht
    rw [corrHeatmapData, List.mem_flatMap] at ht
    obtain ⟨y, hy, ht⟩ := ht
    rw [List.mem_map] at ht
    obtain ⟨x, hx, rfl⟩ := ht
    rw [List.mem_filter] at hx
    exact ⟨of_decide_eq_true hx.2, rfl⟩

/-- C9 (amended): the frequency-grid transform emits exactly one
`(x, y, count)` triplet per cell of the full cross-tabulation grid
(zero-count cells included), and each count is the exact number of row
pairs equal to the cell's category pair. -/
theorem C9_freq_grid_amended (ps : List (ℚ × ℚ)) :
    (freqHeatmapData ps).length =
      (sortedUnique (ps.map Prod.fst)).length
        * (sortedUnique (ps.map Prod.snd)).length ∧
    ∀ t ∈ freqHeatmapData ps,
      t.1 < (sortedUnique (ps.map Prod.snd)).length ∧
      t.2.1 < (sortedUnique (ps.map Prod.fst)).length ∧
      t.2.2 = ps.count
        ((sortedUnique (ps.map Prod.fst)).getD t.2.1 0,
         (sortedUnique (ps.map Prod.snd)).getD t.1 0) := by
  constructor
  · rw [freqHeatmapData, List.length_flatMap]
    have hcong : (List.map
        (List.length ∘ fun yc =>
          ((sortedUnique (ps.map Prod.snd)).enum.map fun xc =>
            (xc.1, yc.1, ps.count (yc.2, xc.2))))
        (sortedUnique (ps.map Prod.fst)).enum)
        = (sortedUnique (ps.map Prod.fst)).enum.map
            fun _ => (sortedUnique (ps.map Prod.snd)).length := by
      apply List.map_congr_left
      intro yc _
      simp [Function.comp, List.length_map]
    rw [hcong]
    simp [List.map_const]
  · intro t ht
    rw [freqHeatmapData, List.mem_flatMap] at ht
    obtain ⟨yc, hyc, ht⟩ := ht
    rw [List.mem_map] at ht
    obtain ⟨xc, hxc, rfl⟩ := ht
    obtain ⟨jy, vy⟩ := yc
    obtain ⟨jx, vx⟩ := xc
    obtain ⟨hylt, hyv⟩ := List.mem_enum hyc
    obtain ⟨hxlt, hxv⟩ := List.mem_enum hxc
    refine ⟨hxlt, hylt, ?_⟩
    simp only []
    rw [hyv, hxv, List.getD_eq_getElem _ _ hylt, List.getD_eq_getElem _ _ hxlt]

end JarvAIs

namespace JarvAIs

/-- Evaluate an integer floor from rational bounds. -/
theorem floor_eval (a : ℚ) (z : ℤ) (h1 : (z : ℚ) ≤ a) (h2 : a < z + 1) :
    Int.floor a = z := by
  rw [Int.floor_eq_iff]
  · exact ⟨h1, by exact_mod_cast h2⟩

/-- Evaluate an integer ceiling from rational bounds. -/
theorem ceil_eval (a : ℚ) (z : ℤ) (h1 : (z : ℚ) - 1 < a) (h2 : a ≤ z) :
    Int.ceil a = z := by
  rw [Int.ceil_eq_iff]
  · exact ⟨by exact_mod_cast h1, h2⟩

/-- Evaluate a quantile once the sorted list and the interpolation indices
are known. -/
theorem quantile_eval (vals s : List ℚ) (q : ℚ) (hs : sortQ vals = s)
    (lo hi : ℕ)
    (hlo : Int.floor (q * ((s.length : ℚ) - 1)) = (lo : ℤ))
    (hhi : Int.ceil (q * ((s.length : ℚ) - 1)) = (hi : ℤ)) :
    quantile vals q =
      s.getD lo 0 + (q * ((s.length : ℚ) - 1) - (lo : ℚ))
        * (s.getD hi 0 - s.getD lo 0) := by
  rw [quantile_eq, hs, hlo, hhi]
  simp only [Int.toNat_natCast]

end JarvAIs

namespace JarvAIs

/-- Quartile values for scenario D's `[1, 2, 3, 4, 5, 100]`. -/
theorem quartiles_scenarioD :
    quantile [(1:ℚ),2,3,4,5,100] (1/4) = 9/4 ∧
    quantile [(1:ℚ),2,3,4,5,100] (1/2) = 7/2 ∧
    quantile [(1:ℚ),2,3,4,5,100] (3/4) = 19/4 := by
  refine ⟨?_, ?_, ?_⟩
  · rw [quantile_eval [(1:ℚ),2,3,4,5,100] [(1:ℚ),2,3,4,5,100] (1/4) (by decide) 1 2
      (floor_eval _ 1 (by norm_num) (by norm_num))
      (ceil_eval _ 2 (by norm_num) (by norm_num))]
    norm_num [List.getD]
  · rw [quantile_eval [(1:ℚ),2,3,4,5,100] [(1:ℚ),2,3,4,5,100] (1/2) (by decide) 2 3
      (floor_eval _ 2 (by norm_num) (by norm_num))
      (ceil_eval _ 3 (by norm_num) (by norm_num))]
    norm_num [List.getD]
  · rw [quantile_eval [(1:ℚ),2,3,4,5,100] [(1:ℚ),2,3,4,5,100] (3/4) (by decide) 3 4
      (floor_eval _ 3 (by norm_num) (by norm_num))
      (ceil_eval _ 4 (by norm_num) (by norm_num))]
    norm_num [List.getD]

set_option maxHeartbeats 1000000 in
/-- The box series and outlier series computed for scenario D. -/
theorem box_eval_scenarioD :
    get_box_plot_json exampleRowsD
      = ([⟨0, 1, 9/4, 7/2, 19/4, 5⟩], [(0, 100)]) := by
  obtain ⟨hq1, hmed, hq3⟩ := quartiles_scenarioD
  have hcats : boxCategories exampleRowsD = [0] := by decide
  have hvals : catVals exampleRowsD 0 = [1,2,3,4,5,100] := by decide
  have hpiece : boxPiece 0 [(1:ℚ),2,3,4,5,100]
      = ([⟨0, 1, 9/4, 7/2, 19/4, 5⟩], [(0, 100)]) := by
    simp only [boxPiece, hq1, hmed, hq3]
    norm_num only
    norm_num [List.filter_cons, List.filter_nil, decide_eq_true_eq, listMin,
      listMax, List.foldl_cons, List.foldl_nil, min_def, max_def,
      List.map_cons, List.map_nil]
  have hmain : get_box_plot_json exampleRowsD
      = ((boxPiece 0 (catVals exampleRowsD 0)).1,
         (boxPiece 0 (catVals exampleRowsD 0)).2) := by
    simp only [get_box_plot_json]
    rw [hcats]
    simp only [List.enum, List.enumFrom, List.map_cons, List.map_nil,
      List.flatten_cons, List.flatten_nil, List.append_nil]
  rw [hmain, hvals, hpiece]

/-- Quartile values for the whisker fixture's `[0, 10, 10, 10]`. -/
theorem quartiles_whisker :
    quantile [(0:ℚ),10,10,10] (1/4) = 15/2 ∧
    quantile [(0:ℚ),10,10,10] (1/2) = 10 ∧
    quantile [(0:ℚ),10,10,10] (3/4) = 10 := by
  refine ⟨?_, ?_, ?_⟩
  · rw [quantile_eval [(0:ℚ),10,10,10] [(0:ℚ),10,10,10] (1/4) (by decide) 0 1
      (floor_eval _ 0 (by norm_num) (by norm_num))
      (ceil_eval _ 1 (by norm_num) (by norm_num))]
    norm_num [List.getD]
  · rw [quantile_eval [(0:ℚ),10,10,10] [(0:ℚ),10,10,10] (1/2) (by decide) 1 2
      (floor_eval _ 1 (by norm_num) (by norm_num))
      (ceil_eval _ 2 (by norm_num) (by norm_num))]
    norm_num [List.getD]
  · rw [quantile_eval [(0:ℚ),10,10,10] [(0:ℚ),10,10,10] (3/4) (by decide) 2 3
      (floor_eval _ 2 (by norm_num) (by norm_num))
      (ceil_eval _ 3 (by norm_num) (by norm_num))]
    norm_num [List.getD]

set_option maxHeartbeats 1000000 in
/-- The box series and outlier series computed for the whisker fixture. -/
theorem box_eval_whisker :
    get_box_plot_json exampleRowsW
      = ([⟨0, 10, 15/2, 10, 10, 10⟩], [(0, 0)]) := by
  obtain ⟨hq1, hmed, hq3⟩ := quartiles_whisker
  have hcats : boxCategories exampleRowsW = [0] := by decide
  have hvals : catVals exampleRowsW 0 = [0,10,10,10] := by decide
  have hpiece : boxPiece 0 [(0:ℚ),10,10,10]
      = ([⟨0, 10, 15/2, 10, 10, 10⟩], [(0, 0)]) := by
    simp only [boxPiece, hq1, hmed, hq3]
    norm_num only
    norm_num [List.filter_cons, List.filter_nil, decide_eq_true_eq, listMin,
      listMax, List.foldl_cons, List.foldl_nil, min_def, max_def,
      List.map_cons, List.map_nil]
  have hmain : get_box_plot_json exampleRowsW
      = ((boxPiece 0 (catVals exampleRowsW 0)).1,
         (boxPiece 0 (catVals exampleRowsW 0)).2) := by
    simp only [get_box_plot_json]
    rw [hcats]
    simp only [List.enum, List.enumFrom, List.map_cons, List.map_nil,
      List.flatten_cons, List.flatten_nil, List.append_nil]
  rw [hmain, hvals, hpiece]

end JarvAIs

namespace JarvAIs

/-- C6: for one category with values `[1,2,3,4,5,100]`, the box summary
has q1 = 2.25, median = 3.5, q3 = 4.75 (linear interpolation), flags 100
as the only outlier, and sets whisker_max = 5 (whisker_min = 1). -/
theorem C6_box_plot_scenarioD :
    (get_box_plot_json exampleRowsD).1 = [⟨0, 1, 9/4, 7/2, 19/4, 5⟩] ∧
    (get_box_plot_json exampleRowsD).2 = [(0, 100)] := by
  rw [box_eval_scenarioD]
  exact ⟨rfl, rfl⟩

/-- C7 counterexample: on one category with values `[0, 10, 10, 10]` the
box entry has whisker_min = 10 but q1 = 7.5, so the claimed chain
`whisker_min ≤ q1` is false. -/
theorem C7_whisker_chain_counterexample :
    (get_box_plot_json exampleRowsW).1 = [⟨0, 10, 15/2, 10, 10, 10⟩] ∧
    ¬ ((10 : ℚ) ≤ 15/2) := by
  constructor
  · rw [box_eval_whisker]
  · norm_num

/-- Witness for C7 (amended) at the whisker fixture. -/
theorem C7_box_entries_amended_witness :
    (⟨0, 10, 15/2, 10, 10, 10⟩ : BoxEntry) ∈ (get_box_plot_json exampleRowsW).1 ∧
    ((⟨0, 10, 15/2, 10, 10, 10⟩ : BoxEntry).q1
        ≤ (⟨0, 10, 15/2, 10, 10, 10⟩ : BoxEntry).median ∧
      (⟨0, 10, 15/2, 10, 10, 10⟩ : BoxEntry).median
        ≤ (⟨0, 10, 15/2, 10, 10, 10⟩ : BoxEntry).q3 ∧
      (⟨0, 10, 15/2, 10, 10, 10⟩ : BoxEntry).low
        ≤ (⟨0, 10, 15/2, 10, 10, 10⟩ : BoxEntry).high ∧
      ∀ o ∈ (get_box_plot_json exampleRowsW).2,
        o.1 = (⟨0, 10, 15/2, 10, 10, 10⟩ : BoxEntry).x →
          (o.2 < (⟨0, 10, 15/2, 10, 10, 10⟩ : BoxEntry).low ∨
           (⟨0, 10, 15/2, 10, 10, 10⟩ : BoxEntry).high < o.2)) := by
  have hmem : (⟨0, 10, 15/2, 10, 10, 10⟩ : BoxEntry)
      ∈ (get_box_plot_json exampleRowsW).1 := by
    rw [box_eval_whisker]
    exact List.mem_singleton.mpr rfl
  exact ⟨hmem, (C7_box_entries_amended exampleRowsW).1 _ hmem⟩

/-- C9 counterexample: the crosstab of the pairs `[(0,0), (1,1)]` has two
non-empty cells, yet the transform emits 4 triplets, among them the
zero-count triplet `(1, 0, 0)`. -/
theorem C9_freq_grid_counterexample :
    (freqHeatmapData [((0:ℚ), (0:ℚ)), (1, 1)]).length = 4 ∧
    (1, 0, 0) ∈ freqHeatmapData [((0:ℚ), (0:ℚ)), (1, 1)] := by
  exact ⟨by decide, by decide⟩

/-- Witness for C9 (amended) at the pairs `[(0,0), (1,1)]` and the
zero-count triplet. -/
theorem C9_freq_grid_amended_witness :
    (1, 0, 0) ∈ freqHeatmapData [((0:ℚ), (0:ℚ)), (1, 1)] ∧
    ((1, 0, 0).1 < (sortedUnique ([((0:ℚ), (0:ℚ)), (1, 1)].map Prod.snd)).length ∧
     (1, 0, 0).2.1 < (sortedUnique ([((0:ℚ), (0:ℚ)), (1, 1)].map Prod.fst)).length ∧
     (1, 0, 0).2.2 = [((0:ℚ), (0:ℚ)), (1, 1)].count
       ((sortedUnique ([((0:ℚ), (0:ℚ)), (1, 1)].map Prod.fst)).getD (1, 0, 0).2.1 0,
        (sortedUnique ([((0:ℚ), (0:ℚ)), (1, 1)].map Prod.snd)).getD (1, 0, 0).1 0)) :=
  ⟨by decide, (C9_freq_grid_amended [((0:ℚ), (0:ℚ)), (1, 1)]).2 _ (by decide)⟩

/-- A rational comparison `a/b > 1/2` over natural casts, reduced to a
decidable natural-number condition. -/
theorem nat_div_gt_half_iff (a b : ℕ) :
    ((a : ℚ) / (b : ℚ) > 1/2) ↔ (0 < b ∧ b < 2 * a) := by
  constructor
  · intro h
    by_cases hb : b = 0
    · subst hb
      norm_num at h
    · have hbp : (0 : ℚ) < (b : ℚ) := by
        exact_mod_cast Nat.pos_of_ne_zero hb
      rw [gt_iff_lt, div_lt_div_iff₀ (by norm_num) hbp] at h
      refine ⟨Nat.pos_of_ne_zero hb, ?_⟩
      have h2 : (b : ℚ) < 2 * (a : ℚ) := by linarith
      exact_mod_cast h2
  · rintro ⟨hb, hab⟩
    have hbp : (0 : ℚ) < (b : ℚ) := by exact_mod_cast hb
    rw [gt_iff_lt, div_lt_div_iff₀ (by norm_num) hbp]
    have h2 : (b : ℚ) < 2 * (a : ℚ) := by exact_mod_cast hab
    linarith

/-- C10 counterexample: on `exampleDf` auto-detection finds the role lists
`(["g"], ["y"])`, yet passing the empty categorical list together with an
explicit continuous list yields an empty result table: the empty list is
not replaced by the detected list. -/
theorem C10_empty_list_counterexample :
    identify_variable_types exampleDf 10 5 = (["g"], ["y"]) ∧
    find_significant_categorical_continuous_pairs okMwu okKw exampleDf
      (some []) (some ["y"]) 1 0 = [] := by
  constructor
  · simp only [identify_variable_types, List.foldl_cons, List.foldl_nil,
      nat_div_gt_half_iff]
    decide
  · rfl

end JarvAIs

namespace JarvAIs

/-- Witness for C1: all three degenerate branches reached on concrete
inputs. -/
theorem C1_test_pair_structured_witness :
    ((cleanPairs ([] : List (Option ℚ × Option ℚ))).length < 3 ∧
      (perform_statistical_test okMwu okKw
          ([] : List (Option ℚ × Option ℚ))).test_type = .insufficient_data ∧
      (perform_statistical_test okMwu okKw
          ([] : List (Option ℚ × Option ℚ))).p_value = 1 ∧
      (perform_statistical_test okMwu okKw
          ([] : List (Option ℚ × Option ℚ))).effect_size = 0 ∧
      (perform_statistical_test okMwu okKw
          ([] : List (Option ℚ × Option ℚ))).n_groups = 0) ∧
    (3 ≤ (cleanPairs exampleRowsOneGroup).length ∧
      ((groupsOf (cleanPairs exampleRowsOneGroup)).filter
          fun g => 0 < g.length).length < 2 ∧
      (perform_statistical_test okMwu okKw
          exampleRowsOneGroup).test_type = .insufficient_groups ∧
      (perform_statistical_test okMwu okKw exampleRowsOneGroup).p_value = 1 ∧
      (perform_statistical_test okMwu okKw exampleRowsOneGroup).effect_size = 0) ∧
    (3 ≤ (cleanPairs exampleRowsTwoGroups).length ∧
      2 ≤ ((groupsOf (cleanPairs exampleRowsTwoGroups)).filter
          fun g => 0 < g.length).length ∧
      (perform_statistical_test errMwu errKw
          exampleRowsTwoGroups).test_type = .error ∧
      (perform_statistical_test errMwu errKw exampleRowsTwoGroups).p_value = 1 ∧
      (perform_statistical_test errMwu errKw
          exampleRowsTwoGroups).effect_size = 0 ∧
      (perform_statistical_test errMwu errKw
          exampleRowsTwoGroups).err = some "degenerate") := by
  refine ⟨⟨by decide, ?_⟩, ⟨by decide, by decide, ?_⟩,
    ⟨by decide, by decide, ?_⟩⟩
  · exact (C1_test_pair_structured okMwu okKw []).1 (by decide)
  · exact (C1_test_pair_structured okMwu okKw exampleRowsOneGroup).2.1
      (by decide) (by decide)
  · obtain ⟨h1, h2, h3, h4⟩ :=
      (C1_test_pair_structured errMwu errKw exampleRowsTwoGroups).2.2
        "degenerate" (by decide) (by decide) rfl
    exact ⟨h1, h2, h3, h4⟩

/-- Witness for C2 at a table with two rows. -/
theorem C2_ranked_pairs_sorted_witness :
    0 + 1 < (find_significant_categorical_continuous_pairs okMwu okKw []
        (some ["a"]) (some ["b", "c"]) 1 0).length ∧
    (((find_significant_categorical_continuous_pairs okMwu okKw []
        (some ["a"]) (some ["b", "c"]) 1 0).getD 0 default).p_value ≤
      ((find_significant_categorical_continuous_pairs okMwu okKw []
        (some ["a"]) (some ["b", "c"]) 1 0).getD (0 + 1) default).p_value) :=
  ⟨by decide,
    (C2_ranked_pairs_sorted okMwu okKw [] (some ["a"]) (some ["b", "c"])
      1 0 0 (by decide)).1⟩

/-- Witness for C3: both test-selection branches on concrete inputs. -/
theorem C3_test_selection_witness :
    (3 ≤ (cleanPairs exampleRowsTwoGroups).length ∧
      ((groupsOf (cleanPairs exampleRowsTwoGroups)).filter
          fun g => 0 < g.length).length = 2 ∧
      (perform_statistical_test okMwu okKw
          exampleRowsTwoGroups).test_type = .mann_whitney_u) ∧
    (3 ≤ (cleanPairs exampleRowsThreeGroups).length ∧
      3 ≤ ((groupsOf (cleanPairs exampleRowsThreeGroups)).filter
          fun g => 0 < g.length).length ∧
      (perform_statistical_test okMwu okKw
          exampleRowsThreeGroups).test_type = .kruskal_wallis) := by
  refine ⟨⟨by decide, by decide, ?_⟩, ⟨by decide, by decide, ?_⟩⟩
  · exact (C3_test_selection okMwu okKw exampleRowsTwoGroups).1
      (by decide) (by decide) (fun e h => by simp [okMwu] at h)
  · exact (C3_test_selection okMwu okKw exampleRowsThreeGroups).2
      (by decide) (by decide) (fun e h => by simp [okKw] at h)

/-- Witness for C4 at an input whose full table is empty. -/
theorem C4_top_significant_pairs_witness :
    find_significant_categorical_continuous_pairs okMwu okKw []
      (some []) (some []) 1 0 = [] ∧
    get_top_significant_pairs okMwu okKw [] 10 (some []) (some []) 1 0 = [] :=
  ⟨rfl,
    (C4_top_significant_pairs okMwu okKw [] 10 (some []) (some []) 1 0).2.2 rfl⟩

/-- Witness for C5 at two groups of three identical values. -/
theorem C5_effect_size_unit_interval_witness :
    2 ≤ (groupsOf (cleanPairs exampleRowsZeroVar)).length ∧
    3 ≤ (cleanPairs exampleRowsZeroVar).length ∧
    (0 ≤ calculate_effect_size exampleRowsZeroVar ∧
      calculate_effect_size exampleRowsZeroVar ≤ 1 ∧
      (ssTotal ((cleanPairs exampleRowsZeroVar).map Prod.snd)
          (mean ((cleanPairs exampleRowsZeroVar).map Prod.snd)) = 0 →
        calculate_effect_size exampleRowsZeroVar = 0)) :=
  ⟨by decide, by decide,
    C5_effect_size_unit_interval exampleRowsZeroVar (by decide) (by decide)⟩

/-- Witness for C8 at a 2x2 identity-like matrix and its single emitted
triplet. -/
theorem C8_corr_heatmap_witness :
    (corrHeatmapData [[(1:ℚ), 0], [0, 1]]).length =
      ([[(1:ℚ), 0], [0, 1]] : List (List ℚ)).length *
        (([[(1:ℚ), 0], [0, 1]] : List (List ℚ)).length - 1) / 2 ∧
    (0, 1, (0:ℚ)) ∈ corrHeatmapData [[(1:ℚ), 0], [0, 1]] ∧
    ((0, 1, (0:ℚ)).1 < (0, 1, (0:ℚ)).2.1 ∧
      (0, 1, (0:ℚ)).2.2 = round2 (matrixEntry [[(1:ℚ), 0], [0, 1]]
        (0, 1, (0:ℚ)).2.1 (0, 1, (0:ℚ)).1)) := by
  have hr2 : round2 (0:ℚ) = 0 := by
    norm_num [round2, roundHalfEven]
  have heval : corrHeatmapData [[(1:ℚ), 0], [0, 1]] = [(0, 1, 0)] := by
    have hme : matrixEntry [[(1:ℚ), 0], [0, 1]] 1 0 = 0 := rfl
    norm_num [corrHeatmapData, List.range_succ, List.range_zero,
      List.flatMap_cons, List.flatMap_nil, List.filter_cons, List.filter_nil,
      decide_eq_true_eq, hme, hr2]
  have hmem : (0, 1, (0:ℚ)) ∈ corrHeatmapData [[(1:ℚ), 0], [0, 1]] := by
    rw [heval]
    exact List.mem_singleton.mpr rfl
  exact ⟨(C8_corr_heatmap_lower_triangle [[(1:ℚ), 0], [0, 1]]).1, hmem,
    (C8_corr_heatmap_lower_triangle [[(1:ℚ), 0], [0, 1]]).2 _ hmem⟩

end JarvAIs
